import Mathlib

/-!
Verification development for the neighbour/distance-table engine of
`ObjCryst/Crystal.cpp` (class `Crystal`).

Modelling conventions:
* `REAL` (C++ double) is modelled by exact rational arithmetic `ℚ` in the
  geometric core, and by `ℝ` in the cost evaluators that apply `sqrt`, `sin`,
  `tan`, `exp`.  Decimal literals of the source (`0.6`, `1e-5`, `0.37`,
  `0.49999`) are modelled by the exact rationals they denote.
* C `long` is modelled by `ℤ`.  The bit operations of the fast path act on
  two's-complement longs; they are modelled by their arithmetic meaning:
  `x & 0x3FFF` is `x mod 2^14` (result in `[0, 2^14)`), and
  `(~x) & 0x1FFF` is `(-x-1) mod 2^13`.
* `ScatteringPower*` pointers are modelled by natural-number handles
  (`0` plays the role of the null pointer, which never occurs as a map key);
  the address comparisons `&p1 < &p2` used for canonical pair keys become
  comparisons of handles.
* The space group object (cctbx, external to this repository) is an opaque
  provider of symmetry-equivalent positions, asymmetric-unit bounds and a
  multiplicity, exactly as consumed by `CalcDistTable`.
-/

namespace ObjCryst

/-- C cast `(long)` applied to a floating value: truncation toward zero. -/
def cLong (q : ℚ) : ℤ := if q < 0 then ⌈q⌉ else ⌊q⌋

/-- `FRAC2LONG = 0x4000` (Crystal.cpp line 1254): the 14-bit fixed-point scale. -/
def FRAC2LONG : ℤ := 16384

/-- `x & FRAC2LONGMASK` (`0x3FFF`) on a two's-complement long, i.e. the low 14
bits of `x`: arithmetically `x mod 2^14`, with result in `[0, 2^14)`
(lines 1291-1293 and 1353-1355). -/
def maskFrac (x : ℤ) : ℤ := x % 16384

/-- Lines 1357-1359: `if(xl & HALF_FRAC2LONG) xl = (~xl) & HALF_FRAC2LONGMASK`.
On the masked range `[0, 2^14)` bit 13 is set exactly when `8192 ≤ x`, and
`(~x) & 0x1FFF` is `(-x-1) mod 2^13`. -/
def signFold (x : ℤ) : ℤ := if 8192 ≤ x then (-x - 1) % 8192 else x

/-- Quantization of one fractional coordinate to fixed point with wraparound
(lines 1288-1293): `(long)(coord * FRAC2LONG)` followed by the bit mask. -/
def quantize (c : ℚ) : ℤ := maskFrac (cLong (c * 16384))

/-- Reduction of one coordinate into `[0,1)` on the exact path
(lines 1401-1406): `modf` (fractional part with the sign of the argument)
followed by `if(x<0) x += 1`. -/
def reduceUnit (c : ℚ) : ℚ :=
  let f := c - (cLong c : ℚ)
  if f < 0 then f + 1 else f

/-- Minimum-image reduction of a displacement on the exact path
(lines 1451-1459): `modf`, shift into `[0,1)`, then `if(x>0.5) x = 1-x`. -/
def minImage (d : ℚ) : ℚ :=
  let f0 := d - (cLong d : ℚ)
  let f := if f0 < 0 then f0 + 1 else f0
  if f > 1/2 then 1 - f else f

/-- A fractional coordinate triple. -/
structure Vec3Q where
  x : ℚ
  y : ℚ
  z : ℚ
deriving DecidableEq, Inhabited

/-- A fixed-point coordinate triple (fast path). -/
structure Vec3Z where
  x : ℤ
  y : ℤ
  z : ℤ
deriving DecidableEq, Inhabited

/-- Model of a `ScatteringPower`: its address (as an ordering handle, nonzero
for real objects), `GetDynPopCorrIndex()` and `GetFormalCharge()`. -/
structure ScatteringPowerM where
  handle : ℕ
  dynPopCorrIndex : ℕ
  formalCharge : ℚ
deriving DecidableEq, Inhabited

/-- One entry of the `ScatteringComponentList`: fractional coordinates,
occupancy, dynamical occupancy correction and the (possibly null) scattering
power pointer. -/
structure ScatteringComponent where
  mX : ℚ
  mY : ℚ
  mZ : ℚ
  mOccupancy : ℚ
  mDynPopCorr : ℚ
  mpScattPow : Option ScatteringPowerM
deriving DecidableEq, Inhabited

/-- The handle used in pointer comparisons/map keys; the null pointer is `0`. -/
def handleOf : Option ScatteringPowerM → ℕ
  | none => 0
  | some p => p.handle

/-- The space-group collaborator as consumed by `CalcDistTable`:
`GetNbSymmetrics()`, `GetAllSymmetrics(x,y,z)` (a list of `nbSymmetrics`
fractional coordinate triples in a fixed deterministic order) and the
asymmetric-unit bounds `GetAsymUnit().Xmax()` etc. -/
structure SpaceGroupM where
  nbSymmetrics : ℕ
  allSymmetrics : ℚ → ℚ → ℚ → List Vec3Q
  xAsymMax : ℚ
  yAsymMax : ℚ
  zAsymMax : ℚ

/-- Unit-cell data consumed by `CalcDistTable`: lattice parameters
`GetLatticePar(0..2)` and the orthogonalization matrix `GetOrthMatrix()`.
The matrix is upper triangular; the source comments out the zero entries
`M10,M20,M21` (lines 1326-1331) and `FractionalToOrthonormalCoords` uses the
same matrix. -/
structure UnitCellM where
  a : ℚ
  b : ℚ
  c : ℚ
  M00 : ℚ
  M01 : ℚ
  M02 : ℚ
  M11 : ℚ
  M12 : ℚ
  M22 : ℚ
deriving DecidableEq, Inhabited

/-- `Crystal::Neighbour` (squared distance kept in ℚ). -/
structure NeighbourQ where
  mNeighbourIndex : ℕ
  mNeighbourSymmetryIndex : ℕ
  mDist2 : ℚ
deriving DecidableEq, Inhabited

/-- `Crystal::NeighbourHood`. `mUniquePosSymmetryIndex` starts zero-initialized,
as after `mvDistTableSq.resize`. -/
structure NeighbourHoodQ where
  mIndex : ℕ
  mUniquePosSymmetryIndex : ℕ
  mvNeighbour : List NeighbourQ
deriving DecidableEq, Inhabited

/-- The asymmetric-unit restriction heuristic (line 1238):
`if((xMax0*yMax0*zMax0)<0.6) useAsymUnit=true`. -/
def useAsymUnitFlag (sg : SpaceGroupM) : Bool :=
  decide (sg.xAsymMax * sg.yAsymMax * sg.zAsymMax < 3/5)

/-- The asymmetric-unit limits of the fast path, in fixed point
(lines 1225-1235 and 1259-1271): strict limits `xMax0l…` and limits with the
margin `asymUnitMargin` converted per axis by the lattice parameters. -/
structure LimitsZ where
  xMax0l : ℤ
  yMax0l : ℤ
  zMax0l : ℤ
  xMaxl : ℤ
  yMaxl : ℤ
  zMaxl : ℤ
  xMinl : ℤ
  yMinl : ℤ
  zMinl : ℤ
deriving DecidableEq, Inhabited

/-- Computation of the fast-path limits from the cell, space group and margin. -/
def limitsZof (cell : UnitCellM) (sg : SpaceGroupM) (margin : ℚ) : LimitsZ :=
  { xMax0l := cLong (sg.xAsymMax * 16384)
    yMax0l := cLong (sg.yAsymMax * 16384)
    zMax0l := cLong (sg.zAsymMax * 16384)
    xMaxl := cLong ((sg.xAsymMax + margin / cell.a) * 16384)
    yMaxl := cLong ((sg.yAsymMax + margin / cell.b) * 16384)
    zMaxl := cLong ((sg.zAsymMax + margin / cell.c) * 16384)
    xMinl := cLong ((1 - margin / cell.a) * 16384)
    yMinl := cLong ((1 - margin / cell.b) * 16384)
    zMinl := cLong ((1 - margin / cell.c) * 16384) }

/-- The nested retention test of the fast path (lines 1297-1299): the position
is kept when it is inside the margin-extended region on every axis. -/
def retainZ (L : LimitsZ) (p : Vec3Z) : Bool :=
  (decide (p.z > L.zMinl) || decide (p.z < L.zMaxl)) &&
  ((decide (p.x > L.xMinl) || decide (p.x < L.xMaxl)) &&
   (decide (p.y > L.yMinl) || decide (p.y < L.yMaxl)))

/-- The strict-limit test of the fast path (line 1302):
`(xl<=xMax0l)&&(yl<=yMax0l)&&(zl<=zMax0l)`. -/
def insideZ (L : LimitsZ) (p : Vec3Z) : Bool :=
  decide (p.x ≤ L.xMax0l) && (decide (p.y ≤ L.yMax0l) && decide (p.z ≤ L.zMax0l))

/-- Quantization of a coordinate triple. -/
def posQuantize (v : Vec3Q) : Vec3Z :=
  ⟨quantize v.x, quantize v.y, quantize v.z⟩

/-- Reduction of a coordinate triple into `[0,1)` (exact path). -/
def posReduce (v : Vec3Q) : Vec3Q :=
  ⟨reduceUnit v.x, reduceUnit v.y, reduceUnit v.z⟩

/-- One component's pass of the position-collection loop
(lines 1285-1315 fast path, 1399-1428 exact path), generic in the position
representation `P`.  `start` is the size of `vPos` before this component.
The accumulator holds the retained `(symmetry index, position)` pairs together
with `vUniqueIndex[i]` (value-initialized to `0`) and
`mUniquePosSymmetryIndex` (zero-initialized); in the restricted branch both
are overwritten each time a retained position also passes the strict test, in
the unrestricted branch they are overwritten on every iteration. -/
def collectComponent {P : Type} (useAsym : Bool) (retain inside : P → Bool)
    (start : ℕ) (qs : List P) : List (ℕ × P) × ℕ × ℕ :=
  qs.enum.foldl
    (fun acc jp =>
      if useAsym then
        if retain jp.2 then
          (acc.1 ++ [jp],
           if inside jp.2 then (start + acc.1.length, jp.1) else acc.2)
        else acc
      else (acc.1 ++ [jp], start + acc.1.length, jp.1))
    ([], 0, 0)

/-- The full position-collection phase over all components: builds the global
`vPos` (entries `(atom index, symmetry index, position)`) and, per component,
the pair `(vUniqueIndex[i], mUniquePosSymmetryIndex)`. -/
def buildPositions {P : Type} (useAsym : Bool) (retain inside : P → Bool)
    (posOf : Vec3Q → P) (sg : SpaceGroupM) (comps : List ScatteringComponent) :
    List (ℕ × ℕ × P) × List (ℕ × ℕ) :=
  comps.foldl
    (fun acc comp =>
      let qs := (sg.allSymmetrics comp.mX comp.mY comp.mZ).map posOf
      let r := collectComponent useAsym retain inside acc.1.length qs
      (acc.1 ++ r.1.map (fun jp => (acc.2.length, jp.1, jp.2)),
       acc.2 ++ [r.2]))
    ([], [])

/-- Squared distance of the fast path between the unique position `p` and a
position `q` (lines 1349-1364): integer difference, bit-mask modulo reduction,
sign folding, then the orthogonalization matrix pre-divided by `FRAC2LONG`. -/
def fastDist2 (cell : UnitCellM) (p q : Vec3Z) : ℚ :=
  let xl := signFold (maskFrac (q.x - p.x))
  let yl := signFold (maskFrac (q.y - p.y))
  let zl := signFold (maskFrac (q.z - p.z))
  let x := cell.M00 / 16384 * (xl : ℚ) + cell.M01 / 16384 * (yl : ℚ)
             + cell.M02 / 16384 * (zl : ℚ)
  let y := cell.M11 / 16384 * (yl : ℚ) + cell.M12 / 16384 * (zl : ℚ)
  let z := cell.M22 / 16384 * (zl : ℚ)
  x * x + y * y + z * z

/-- Squared distance of the exact path between the unique position `p` and a
position `q` (lines 1451-1461): minimum-image reduction per axis followed by
`FractionalToOrthonormalCoords`. -/
def exactDist2 (cell : UnitCellM) (p q : Vec3Q) : ℚ :=
  let dx := minImage (q.x - p.x)
  let dy := minImage (q.y - p.y)
  let dz := minImage (q.z - p.z)
  let x := cell.M00 * dx + cell.M01 * dy + cell.M02 * dz
  let y := cell.M11 * dy + cell.M12 * dz
  let z := cell.M22 * dz
  x * x + y * y + z * z

/-- The distance scan for one component (lines 1345-1375 / 1446-1472): one
`Neighbour` per entry of `vPos` other than `vUniqueIndex[i]` itself. -/
def neighbourList {P : Type} [Inhabited P] (dist2 : P → P → ℚ)
    (vPos : List (ℕ × ℕ × P)) (uIdx : ℕ) : List NeighbourQ :=
  vPos.enum.filterMap
    (fun je =>
      if je.1 = uIdx then none
      else some ⟨je.2.1, je.2.2.1, dist2 (vPos.getD uIdx default).2.2 je.2.2.2⟩)

/-- `Crystal::CalcDistTable` with `fast=true` (lines 1246-1378), as a function
of the cell, the space-group provider, the margin and the component list. -/
def calcDistTableFast (cell : UnitCellM) (sg : SpaceGroupM) (margin : ℚ)
    (comps : List ScatteringComponent) : List NeighbourHoodQ :=
  let L := limitsZof cell sg margin
  let bp := buildPositions (useAsymUnitFlag sg) (retainZ L) (insideZ L)
              posQuantize sg comps
  bp.2.enum.map (fun iu => ⟨iu.1, iu.2.2, neighbourList (fastDist2 cell) bp.1 iu.2.1⟩)

/-- The asymmetric-unit limits of the exact path (lines 1225-1235). -/
structure LimitsQ where
  xMax0 : ℚ
  yMax0 : ℚ
  zMax0 : ℚ
  xMax : ℚ
  yMax : ℚ
  zMax : ℚ
  xMin : ℚ
  yMin : ℚ
  zMin : ℚ
deriving DecidableEq, Inhabited

/-- Exact-path limits from the cell, space group and margin. -/
def limitsQof (cell : UnitCellM) (sg : SpaceGroupM) (margin : ℚ) : LimitsQ :=
  { xMax0 := sg.xAsymMax
    yMax0 := sg.yAsymMax
    zMax0 := sg.zAsymMax
    xMax := sg.xAsymMax + margin / cell.a
    yMax := sg.yAsymMax + margin / cell.b
    zMax := sg.zAsymMax + margin / cell.c
    xMin := 1 - margin / cell.a
    yMin := 1 - margin / cell.b
    zMin := 1 - margin / cell.c }

/-- Exact-path retention test (lines 1410-1412). -/
def retainQ (L : LimitsQ) (p : Vec3Q) : Bool :=
  (decide (p.z > L.zMin) || decide (p.z < L.zMax)) &&
  ((decide (p.x > L.xMin) || decide (p.x < L.xMax)) &&
   (decide (p.y > L.yMin) || decide (p.y < L.yMax)))

/-- Exact-path strict-limit test (line 1415). -/
def insideQ (L : LimitsQ) (p : Vec3Q) : Bool :=
  decide (p.x ≤ L.xMax0) && (decide (p.y ≤ L.yMax0) && decide (p.z ≤ L.zMax0))

/-- `Crystal::CalcDistTable` with `fast=false` (lines 1379-1475). -/
def calcDistTableExact (cell : UnitCellM) (sg : SpaceGroupM) (margin : ℚ)
    (comps : List ScatteringComponent) : List NeighbourHoodQ :=
  let L := limitsQof cell sg margin
  let bp := buildPositions (useAsymUnitFlag sg) (retainQ L) (insideQ L)
              posReduce sg comps
  bp.2.enum.map (fun iu => ⟨iu.1, iu.2.2, neighbourList (exactDist2 cell) bp.1 iu.2.1⟩)

/-!  `Crystal::GetMinDistanceTable` (lines 350-389). -/

/-- Lines 359-360: `min = minDistance*minDistance; if(minDistance<0) min=-1;`. -/
def minPar (minDistance : ℚ) : ℚ :=
  if minDistance < 0 then -1 else minDistance * minDistance

/-- One update of the scan loop of `GetMinDistanceTable` (lines 369-375) on
the entry for column `j`: the entry is lowered to `tmp` whenever
`tmp<dist && (tmp>min || (mIndex!=neighbourIndex && mUniquePosSymmetryIndex!=neighbourSymmetryIndex))`. -/
def minDistStep (hood : NeighbourHoodQ) (minq : ℚ) (j : ℕ) (cur : ℚ)
    (nb : NeighbourQ) : ℚ :=
  if nb.mNeighbourIndex = j ∧ nb.mDist2 < cur ∧
      (nb.mDist2 > minq ∨
        (hood.mIndex ≠ nb.mNeighbourIndex ∧
         hood.mUniquePosSymmetryIndex ≠ nb.mNeighbourSymmetryIndex))
  then nb.mDist2 else cur

/-- The scan phase of `GetMinDistanceTable` (lines 362-377) for entry `(i,j)`:
starting from the initialization `minDistTable=10000.`, component `i`'s
neighbour list updates the entry through `minDistStep`. -/
def minDistScanEntry (hood : NeighbourHoodQ) (minq : ℚ) (j : ℕ) : ℚ :=
  hood.mvNeighbour.foldl (minDistStep hood minq j) 10000

/-- Line 382: `if(9999.<minDistTable(i,j)) minDistTable(i,j)=0;`. -/
def minDistFix (q : ℚ) : ℚ := if 9999 < q then 0 else q

/-- The finalization loop (lines 378-386) reads the lower triangle `j ≤ i`,
resets untouched entries to 0, takes the square root, and mirrors the result
onto the upper triangle. -/
noncomputable def getMinDistanceTable (hoods : List NeighbourHoodQ)
    (minDistance : ℚ) : ℕ → ℕ → ℝ :=
  fun i j =>
    let lower := fun i' j' =>
      Real.sqrt ((minDistFix (minDistScanEntry (hoods.getD i' default)
        (minPar minDistance) j') : ℚ) : ℝ)
    if j ≤ i then lower i j else lower j i

/-!  `Crystal::CalcDynPopCorr` (lines 667-717). -/

/-- The correction factor computed for one component (lines 684-713): collect
the distances `sqrt(mDist2)` of the neighbours with the same
`GetDynPopCorrIndex()` and `overlapDistSq > mDist2`; for each, accumulate
`corr += fabs((overlapDist-dist-mergeDist)/(overlapDist-mergeDist))` after
clamping `dist = max(0, sqrt(d2) - mergeDist)`; the factor is `1/(1+corr)`.
A component with a null `mpScattPow` gets factor 1. -/
noncomputable def calcDynPopCorrFactor (overlapDist mergeDist : ℚ)
    (comps : List ScatteringComponent) (hood : NeighbourHoodQ)
    (comp : ScatteringComponent) : ℝ :=
  match comp.mpScattPow with
  | none => 1
  | some pow =>
    let ds : List ℝ := hood.mvNeighbour.filterMap
      (fun nb =>
        match (comps.getD nb.mNeighbourIndex default).mpScattPow with
        | none => none
        | some pow2 =>
          if pow.dynPopCorrIndex = pow2.dynPopCorrIndex ∧
              overlapDist * overlapDist > nb.mDist2
          then some (Real.sqrt ((nb.mDist2 : ℚ) : ℝ)) else none)
    let corr : ℝ := ds.foldl
      (fun acc d =>
        let dist := d - (mergeDist : ℝ)
        let dist := if dist < 0 then 0 else dist
        acc + |((overlapDist : ℝ) - dist - (mergeDist : ℝ)) /
               ((overlapDist : ℝ) - (mergeDist : ℝ))|)
      0
    1 / (1 + corr)

/-- The per-component factors written into `mScattCompList(i).mDynPopCorr`. -/
noncomputable def calcDynPopCorrFactors (overlapDist mergeDist : ℚ)
    (comps : List ScatteringComponent) (hoods : List NeighbourHoodQ) : List ℝ :=
  comps.enum.map
    (fun ic => calcDynPopCorrFactor overlapDist mergeDist comps
      (hoods.getD ic.1 default) ic.2)

/-!  `Crystal::GetBumpMergeCost` (lines 745-789) and the pairwise parameter
maps (lines 791-818, 1048-1063). -/

/-- `Crystal::BumpMergePar` (lines 745-749): the minimum distance is stored
squared. -/
structure BumpMergePar where
  mDist2 : ℚ
  mCanOverlap : Bool
deriving DecidableEq, Inhabited

/-- `mvBumpMergePar`: a map keyed by ordered pairs of scattering-power
handles, modelled as an association list with distinct keys. -/
abbrev VBumpMergePar := List ((ℕ × ℕ) × BumpMergePar)

/-- `mvBondValenceRo`: bond-valence reference lengths, same key discipline. -/
abbrev VBondValenceRo := List ((ℕ × ℕ) × ℚ)

/-- The canonical key: `&p1 < &p2 ? (p1,p2) : (p2,p1)`
(lines 774-775, 804-807, 1050-1051, 1123-1124). -/
def pairKey (h1 h2 : ℕ) : ℕ × ℕ := if h1 < h2 then (h1, h2) else (h2, h1)

/-- The body of the neighbour loop of `GetBumpMergeCost` (lines 771-783),
for species handles `i1, i2` and squared distance `d2`: look up the species
pair; skip absent pairs (`continue`, line 776) and pairs with
`mDist2 > par.mDist2` (line 777); otherwise accumulate `tmp*tmp` with `tmp`
from lines 778-781. -/
noncomputable def bumpMergeStep (pars : VBumpMergePar) (i1 i2 : ℕ)
    (acc2 : ℝ) (d2 : ℚ) : ℝ :=
  match List.lookup (pairKey i1 i2) pars with
  | none => acc2
  | some par =>
    if d2 > par.mDist2 then acc2
    else
      let tmp : ℝ :=
        if par.mCanOverlap then
          0.5 * Real.sin (Real.pi *
            (1 - Real.sqrt (((d2 : ℚ) : ℝ) / ((par.mDist2 : ℚ) : ℝ)))) / 0.1
        else
          Real.tan (Real.pi * 0.49999 *
            (1 - Real.sqrt (((d2 : ℚ) : ℝ) / ((par.mDist2 : ℚ) : ℝ)))) / 0.1
      acc2 + tmp * tmp

/-- `Crystal::GetBumpMergeCost` (lines 751-789): early 0 for an empty map
(line 753) or a scale below `1e-5` (line 754); the double loop of lines
768-784 accumulates `bumpMergeStep`; the total is multiplied by
`GetNbSymmetrics()` (line 785) and returned times the scale (line 788). -/
noncomputable def getBumpMergeCost (sgNbSym : ℕ) (pars : VBumpMergePar)
    (scale : ℚ) (comps : List ScatteringComponent)
    (hoods : List NeighbourHoodQ) : ℝ :=
  if pars = [] then 0
  else if scale < 1/100000 then 0
  else
    let cost : ℝ := hoods.foldl
      (fun acc hood =>
        hood.mvNeighbour.foldl
          (fun acc2 nb =>
            bumpMergeStep pars
              (handleOf (comps.getD hood.mIndex default).mpScattPow)
              (handleOf (comps.getD nb.mNeighbourIndex default).mpScattPow)
              acc2 nb.mDist2)
          acc)
      0
    cost * (sgNbSym : ℝ) * (scale : ℝ)

/-- One qualifying pair's penalty term, as the specification words it: the
pair must be present in the table and the squared distance strictly below the
threshold; the term uses `d = sqrt(dist²)` and `dmin = sqrt` of the stored
squared minimum. -/
noncomputable def bumpMergeTermSpec (pars : VBumpMergePar) (i1 i2 : ℕ)
    (d2 : ℚ) : Option ℝ :=
  match List.lookup (pairKey i1 i2) pars with
  | none => none
  | some par =>
    if d2 < par.mDist2 then
      let d : ℝ := Real.sqrt ((d2 : ℚ) : ℝ)
      let dmin : ℝ := Real.sqrt ((par.mDist2 : ℚ) : ℝ)
      some (if par.mCanOverlap then
              (0.5 * Real.sin (Real.pi * (1 - d / dmin)) / 0.1) ^ 2
            else
              (Real.tan (Real.pi * 0.49999 * (1 - d / dmin)) / 0.1) ^ 2)
    else none

/-- The bump-merge cost as claim C6 words it: the sum of `bumpMergeTermSpec`
over all neighbour pairs, multiplied by the space-group multiplicity and then
by the scale factor; 0 when no pair parameters are configured or the scale
factor is below `1e-5`. -/
noncomputable def bumpMergeCostSpec (sgNbSym : ℕ) (pars : VBumpMergePar)
    (scale : ℚ) (comps : List ScatteringComponent)
    (hoods : List NeighbourHoodQ) : ℝ :=
  if pars = [] ∨ scale < 1/100000 then 0
  else
    let terms : List ℝ := hoods.flatMap
      (fun hood =>
        hood.mvNeighbour.filterMap
          (fun nb =>
            bumpMergeTermSpec pars
              (handleOf (comps.getD hood.mIndex default).mpScattPow)
              (handleOf (comps.getD nb.mNeighbourIndex default).mpScattPow)
              nb.mDist2))
    terms.sum * (sgNbSym : ℝ) * (scale : ℝ)

/-!  `Crystal::CalcBondValenceSum` (lines 1099-1135). -/

/-- The body of the neighbour loop of `CalcBondValenceSum` (lines 1114-1131),
for species handles `pow1, pow2`, effective occupancy `occup` and squared
distance `d2`: a configured `R0` adds `occup * exp((R0 - d)/0.37)` to the
sum and bumps the contributing-bond counter `nb`. -/
noncomputable def bondValenceStep (ros : VBondValenceRo) (pow1 pow2 : ℕ)
    (occup : ℝ) (d2 : ℚ) (acc : ℕ × ℝ) : ℕ × ℝ :=
  match List.lookup (pairKey pow1 pow2) ros with
  | some r0 =>
    (acc.1 + 1, acc.2 + occup * Real.exp (((r0 : ℝ) - Real.sqrt ((d2 : ℚ) : ℝ)) / 0.37))
  | none => acc

/-- The recomputation body of `CalcBondValenceSum` (lines 1108-1133): for
each component `i`, scan its neighbour list accumulating `bondValenceStep`
with the neighbour's effective occupancy `mOccupancy * mDynPopCorr`;
`mvBondValenceCalc[i]` is written only when at least one neighbour
contributed (`if(nb!=0)`, line 1132). -/
noncomputable def calcBondValenceSum (ros : VBondValenceRo)
    (comps : List ScatteringComponent) (hoods : List NeighbourHoodQ) :
    List (ℕ × ℝ) :=
  comps.enum.filterMap
    (fun ic =>
      let r : ℕ × ℝ := (hoods.getD ic.1 default).mvNeighbour.foldl
        (fun acc nb =>
          bondValenceStep ros (handleOf ic.2.mpScattPow)
            (handleOf (comps.getD nb.mNeighbourIndex default).mpScattPow)
            (((comps.getD nb.mNeighbourIndex default).mOccupancy : ℝ)
              * ((comps.getD nb.mNeighbourIndex default).mDynPopCorr : ℝ))
            nb.mDist2 acc)
        (0, 0)
      if r.1 ≠ 0 then some (ic.1, r.2) else none)

/-- One neighbour's bond-valence contribution as the specification words it:
`occup · exp((R0 - d)/0.37)` when the species pair has a configured `R0`. -/
noncomputable def bondValenceTermSpec (ros : VBondValenceRo) (pow1 pow2 : ℕ)
    (occup : ℝ) (d2 : ℚ) : Option ℝ :=
  (List.lookup (pairKey pow1 pow2) ros).map
    (fun r0 => occup * Real.exp (((r0 : ℝ) - Real.sqrt ((d2 : ℚ) : ℝ)) / 0.37))

/-- The bond-valence sums as the specification states them (with the
occupancy of the neighbour read as its dynamically-corrected occupancy
`mOccupancy * mDynPopCorr`): per component, the list of terms over the
neighbours with configured `R0`; the component is omitted when that list is
empty. -/
noncomputable def bondValenceSumSpec (ros : VBondValenceRo)
    (comps : List ScatteringComponent) (hoods : List NeighbourHoodQ) :
    List (ℕ × ℝ) :=
  comps.enum.filterMap
    (fun ic =>
      let terms : List ℝ := (hoods.getD ic.1 default).mvNeighbour.filterMap
        (fun nb =>
          bondValenceTermSpec ros (handleOf ic.2.mpScattPow)
            (handleOf (comps.getD nb.mNeighbourIndex default).mpScattPow)
            (((comps.getD nb.mNeighbourIndex default).mOccupancy : ℝ)
              * ((comps.getD nb.mNeighbourIndex default).mDynPopCorr : ℝ))
            nb.mDist2)
      if terms = [] then none else some (ic.1, terms.sum))

/-- The bond-valence sums as claim C7 literally states them: the term is
`occupancy(neighbour) · exp((R0 - d)/0.37)` with the nominal occupancy alone
(no dynamical-occupancy factor). -/
noncomputable def bondValenceSumClaimed (ros : VBondValenceRo)
    (comps : List ScatteringComponent) (hoods : List NeighbourHoodQ) :
    List (ℕ × ℝ) :=
  comps.enum.filterMap
    (fun ic =>
      let terms : List ℝ := (hoods.getD ic.1 default).mvNeighbour.filterMap
        (fun nb =>
          bondValenceTermSpec ros (handleOf ic.2.mpScattPow)
            (handleOf (comps.getD nb.mNeighbourIndex default).mpScattPow)
            ((comps.getD nb.mNeighbourIndex default).mOccupancy : ℝ)
            nb.mDist2)
      if terms = [] then none else some (ic.1, terms.sum))

/-!  Mutation of the pairwise parameter maps:
`Crystal::SetBumpMergeDistance` (lines 791-809),
`Crystal::RemoveBumpMergeDistance` (lines 810-818),
`Crystal::AddBondValenceRo` (lines 1048-1054),
`Crystal::RemoveBondValenceRo` (lines 1056-1063). -/

/-- `std::map::operator[] = v`: overwrite the entry with this key if present,
otherwise insert a new one. -/
def mapStore {α : Type} (m : List ((ℕ × ℕ) × α)) (k : ℕ × ℕ) (v : α) :
    List ((ℕ × ℕ) × α) :=
  if (List.lookup k m).isSome then
    m.map (fun e => if e.1 = k then (k, v) else e)
  else m ++ [(k, v)]

/-- `map.erase(map.find(k))` guarded by `find != end`. -/
def mapErase {α : Type} (m : List ((ℕ × ℕ) × α)) (k : ℕ × ℕ) :
    List ((ℕ × ℕ) × α) :=
  m.filter (fun e => decide (e.1 ≠ k))

/-- The four-argument `SetBumpMergeDistance` (lines 799-809): store under the
canonical key. -/
def setBumpMergeDistance (m : VBumpMergePar) (h1 h2 : ℕ) (dist : ℚ)
    (allowMerge : Bool) : VBumpMergePar :=
  mapStore m (pairKey h1 h2) ⟨dist * dist, allowMerge⟩

/-- The three-argument `SetBumpMergeDistance` (lines 791-797): two identical
species may overlap, distinct ones may not. -/
def setBumpMergeDistanceDefault (m : VBumpMergePar) (h1 h2 : ℕ) (dist : ℚ) :
    VBumpMergePar :=
  if h1 = h2 then setBumpMergeDistance m h1 h2 dist true
  else setBumpMergeDistance m h1 h2 dist false

/-- `RemoveBumpMergeDistance` (lines 810-818). -/
def removeBumpMergeDistance (m : VBumpMergePar) (h1 h2 : ℕ) : VBumpMergePar :=
  mapErase m (pairKey h1 h2)

/-- `AddBondValenceRo` (lines 1048-1054). -/
def addBondValenceRo (m : VBondValenceRo) (h1 h2 : ℕ) (ro : ℚ) : VBondValenceRo :=
  mapStore m (pairKey h1 h2) ro

/-- `RemoveBondValenceRo` (lines 1056-1063). -/
def removeBondValenceRo (m : VBondValenceRo) (h1 h2 : ℕ) : VBondValenceRo :=
  mapErase m (pairKey h1 h2)

/-- One mutation of the pairwise parameter maps. -/
inductive PairParOp : Type
  | setBump (h1 h2 : ℕ) (dist : ℚ)
  | removeBump (h1 h2 : ℕ)
  | addRo (h1 h2 : ℕ) (ro : ℚ)
  | removeRo (h1 h2 : ℕ)

/-- Apply one mutation to the pair of maps `(mvBumpMergePar, mvBondValenceRo)`. -/
def applyPairParOp (st : VBumpMergePar × VBondValenceRo) (op : PairParOp) :
    VBumpMergePar × VBondValenceRo :=
  match op with
  | .setBump h1 h2 dist => (setBumpMergeDistanceDefault st.1 h1 h2 dist, st.2)
  | .removeBump h1 h2 => (removeBumpMergeDistance st.1 h1 h2, st.2)
  | .addRo h1 h2 ro => (st.1, addBondValenceRo st.2 h1 h2 ro)
  | .removeRo h1 h2 => (st.1, removeBondValenceRo st.2 h1 h2)

/-- Apply a sequence of mutations starting from the freshly-constructed
crystal (both maps empty). -/
def applyPairParOps (ops : List PairParOp) : VBumpMergePar × VBondValenceRo :=
  ops.foldl applyPairParOp ([], [])

/-- The canonical-key invariant of a pairwise map: every key is ordered
(smaller handle first) and no key occurs twice. -/
def CanonicalKeys {α : Type} (m : List ((ℕ × ℕ) × α)) : Prop :=
  (∀ e ∈ m, e.1.1 ≤ e.1.2) ∧ (m.map Prod.fst).Nodup

end ObjCryst

namespace ObjCryst.CacheModel

/-!  The lazy-recomputation cache of `Crystal`, driven by `RefinableObjClock`
comparisons.  The clocks are modelled as natural numbers stamped from a
global monotonically increasing counter (`Click()` advances the counter and
stamps the clock); the comparisons transcribe the gates of
`GetScatteringComponentList` (lines 260-292), `CalcDistTable`
(lines 1204-1210, 1476), `CalcDynPopCorr` (lines 667-673, 715),
`ResetDynPopCorr` (lines 719-725), `GetBumpMergeCost` (lines 751-789),
`CalcBondValenceSum` (lines 1099-1135) and `GetBondValenceCost`
(lines 1065-1091).  The data produced by the recomputations is abstracted
into tokens computed by the deterministic functions of `Funcs`; this keeps
the clock logic — the subject of the claims — exact while leaving the
numerics to the rest of this development. -/

/-- The deterministic computations and configuration the cache logic calls
into. -/
structure Funcs where
  computeCompList : ℕ → ℕ
  computeDistTable : ℕ → ℕ
  computeDynFactors : ℕ → ℕ
  computeBumpCost : ℕ → ℕ → ℚ
  computeBondCalc : ℕ → ℕ → ℕ → ℕ
  computeBondCost : ℕ → ℚ
  bumpParsNonempty : Bool
  bondRosNonempty : Bool
  bumpScale : ℚ
  bondScale : ℚ
  useDynPopCorr : Bool
  scattererData : ℕ

/-- The clocks, cached artifacts and an instrumented recompute counter. -/
structure St where
  global : ℕ
  masterClock : ℕ
  scattClocks : List ℕ
  metricClock : ℕ
  masterScatPowClock : ℕ
  bumpParClock : ℕ
  bondParClock : ℕ
  clockScattCompList : ℕ
  distTableClock : ℕ
  dynPopCorrClock : ℕ
  bumpCostClock : ℕ
  bondCalcClock : ℕ
  bondCostClock : ℕ
  compListData : ℕ
  distTableData : ℕ
  dynFactorsData : ℕ
  bondCalcData : ℕ
  bumpCostVal : ℚ
  bondCostVal : ℚ
  recomputeCount : ℕ
deriving DecidableEq

/-- `Crystal::CalcDistTable` without its leading
`GetScatteringComponentList()` call: the gate of lines 1208-1209 and the
`mDistTableClock.Click()` of line 1476 around the recomputation. -/
def calcDistTableCore (F : Funcs) (s : St) : St :=
  if s.distTableClock > s.clockScattCompList ∧ s.distTableClock > s.metricClock
  then s
  else
    { s with global := s.global + 1, distTableClock := s.global + 1,
             distTableData := F.computeDistTable s.compListData,
             recomputeCount := s.recomputeCount + 1 }

/-- `Crystal::CalcDynPopCorr`: the gate of line 673 and the
`mClockDynPopCorr.Click()` of line 715.  Its `CalcDistTable` call (line 672)
appears as `calcDistTableCore`: on the one path that reaches this function
(line 285) `mClockScattCompList` has just been clicked, so the nested
`GetScatteringComponentList()` returns immediately with no effect. -/
def calcDynPopCorrCore (F : Funcs) (s : St) : St :=
  let s1 := calcDistTableCore F s
  if s1.dynPopCorrClock > s1.distTableClock then s1
  else
    { s1 with global := s1.global + 1, dynPopCorrClock := s1.global + 1,
              dynFactorsData := F.computeDynFactors s1.distTableData,
              recomputeCount := s1.recomputeCount + 1 }

/-- `Crystal::ResetDynPopCorr` (lines 719-725): the clock is `Reset()` to the
bottom value and the factors are forced to 1 (token 0). -/
def resetDynPopCorr (s : St) : St :=
  { s with dynPopCorrClock := 0, dynFactorsData := 0 }

/-- `Crystal::GetScatteringComponentList` (lines 260-292): early return when
`mClockScattCompList>mClockMaster`; otherwise scan the per-scatterer clocks,
and if any is newer rebuild the list, click its clock, then apply the
dynamical occupancy correction or reset it according to the option. -/
def getScattCompList (F : Funcs) (s : St) : St :=
  if s.clockScattCompList > s.masterClock then s
  else if s.scattClocks.any (fun c => decide (s.clockScattCompList < c)) then
    let s1 := { s with global := s.global + 1,
                       clockScattCompList := s.global + 1,
                       compListData := F.computeCompList F.scattererData,
                       recomputeCount := s.recomputeCount + 1 }
    if F.useDynPopCorr then calcDynPopCorrCore F s1 else resetDynPopCorr s1
  else s

/-- `Crystal::CalcDistTable` (line 1206 then the gated computation). -/
def calcDistTable (F : Funcs) (s : St) : St :=
  calcDistTableCore F (getScattCompList F s)

/-- `Crystal::GetBumpMergeCost` (lines 751-789): early 0 for an empty
parameter map or a scale below `1e-5`; otherwise refresh the distance table,
return the cached cost if `mBumpMergeCostClock` beats both
`mBumpMergeParClock` and `mDistTableClock`, and recompute + click otherwise.
Returns the value `mBumpMergeCost*mBumpMergeScale` and the new state. -/
def getBumpMergeCost (F : Funcs) (s : St) : ℚ × St :=
  if F.bumpParsNonempty = false then (0, s)
  else if F.bumpScale < 1/100000 then (0, s)
  else
    let s1 := calcDistTable F s
    if s1.bumpCostClock > s1.bumpParClock ∧ s1.bumpCostClock > s1.distTableClock
    then (s1.bumpCostVal * F.bumpScale, s1)
    else
      let v := F.computeBumpCost s1.compListData s1.distTableData
      (v * F.bumpScale,
       { s1 with global := s1.global + 1, bumpCostClock := s1.global + 1,
                 bumpCostVal := v, recomputeCount := s1.recomputeCount + 1 })

/-- `Crystal::CalcBondValenceSum` (lines 1099-1135): nothing happens without
configured `R0` values; otherwise refresh the distance table and recompute
`mvBondValenceCalc` unless `mBondValenceCalcClock` beats both
`mDistTableClock` and `mBondValenceParClock`. -/
def calcBondValenceSum (F : Funcs) (s : St) : St :=
  if F.bondRosNonempty = false then s
  else
    let s1 := calcDistTable F s
    if s1.bondCalcClock > s1.distTableClock ∧ s1.bondCalcClock > s1.bondParClock
    then s1
    else
      { s1 with global := s1.global + 1, bondCalcClock := s1.global + 1,
                bondCalcData := F.computeBondCalc s1.compListData
                  s1.dynFactorsData s1.distTableData,
                recomputeCount := s1.recomputeCount + 1 }

/-- `Crystal::GetBondValenceCost` (lines 1065-1091): 0 for a small scale; with
no configured `R0` the cached cost is set to 0 and returned; otherwise the
sums are refreshed and the cost is cached under
`mBondValenceCostClock > mBondValenceCalcClock ∧ > GetMasterClockScatteringPower()`. -/
def getBondValenceCost (F : Funcs) (s : St) : ℚ × St :=
  if F.bondScale < 1/100000 then (0, s)
  else if F.bondRosNonempty = false then
    (0 * F.bondScale, { s with bondCostVal := 0 })
  else
    let s1 := calcBondValenceSum F s
    if s1.bondCostClock > s1.bondCalcClock ∧
        s1.bondCostClock > s1.masterScatPowClock
    then (s1.bondCostVal * F.bondScale, s1)
    else
      let v := F.computeBondCost s1.bondCalcData
      (v * F.bondScale,
       { s1 with global := s1.global + 1, bondCostClock := s1.global + 1,
                 bondCostVal := v, recomputeCount := s1.recomputeCount + 1 })

/-- `Crystal::GetLogLikelihood` (lines 856-859):
`return GetBumpMergeCost()+GetBondValenceCost();`. -/
def getLogLikelihood (F : Funcs) (s : St) : ℚ × St :=
  let b := getBumpMergeCost F s
  let v := getBondValenceCost F b.2
  (b.1 + v.1, v.2)

/-- Well-formed clock state: every clock was stamped from the global counter,
so none exceeds it. -/
def WF (s : St) : Prop :=
  s.masterClock ≤ s.global ∧ (∀ c ∈ s.scattClocks, c ≤ s.global) ∧
  s.metricClock ≤ s.global ∧ s.masterScatPowClock ≤ s.global ∧
  s.bumpParClock ≤ s.global ∧ s.bondParClock ≤ s.global ∧
  s.clockScattCompList ≤ s.global ∧ s.distTableClock ≤ s.global ∧
  s.dynPopCorrClock ≤ s.global ∧ s.bumpCostClock ≤ s.global ∧
  s.bondCalcClock ≤ s.global ∧ s.bondCostClock ≤ s.global

/-- Coherent cache contents: every cached artifact holds exactly what its
recomputation would produce from its dependencies (the reachable situation
for a crystal whose caches were filled by these very computations). -/
def Coherent (F : Funcs) (s : St) : Prop :=
  s.compListData = F.computeCompList F.scattererData ∧
  s.distTableData = F.computeDistTable s.compListData ∧
  s.dynFactorsData =
    (if F.useDynPopCorr then F.computeDynFactors s.distTableData else 0) ∧
  s.bondCalcData =
    F.computeBondCalc s.compListData s.dynFactorsData s.distTableData ∧
  s.bumpCostVal = F.computeBumpCost s.compListData s.distTableData ∧
  s.bondCostVal = F.computeBondCost s.bondCalcData

end ObjCryst.CacheModel

namespace ObjCryst

/-!  Evaluation helpers for the geometric core. -/

theorem cLong_intCast (n : ℤ) : cLong ((n : ℚ)) = n := by
  unfold cLong
  split
  · exact Int.ceil_intCast n
  · exact Int.floor_intCast n

theorem cLong_eval {q : ℚ} {n : ℤ} (h : q = (n : ℚ)) : cLong q = n := by
  rw [h, cLong_intCast]

theorem cLong_eval_nonneg {q : ℚ} {n : ℤ} (h0 : 0 ≤ q) (h1 : (n : ℚ) ≤ q)
    (h2 : q < (n : ℚ) + 1) : cLong q = n := by
  unfold cLong
  rw [if_neg (not_lt.mpr h0)]
  rw [Int.floor_eq_iff]
  constructor
  · exact_mod_cast h1
  · exact_mod_cast h2

theorem quantize_eval {c : ℚ} {n : ℤ} (h : c * 16384 = (n : ℚ)) :
    quantize c = n % 16384 := by
  unfold quantize maskFrac
  rw [cLong_eval h]

theorem quantize_eval_nonneg {c : ℚ} {n : ℤ} (h0 : 0 ≤ c * 16384)
    (h1 : (n : ℚ) ≤ c * 16384) (h2 : c * 16384 < (n : ℚ) + 1) :
    quantize c = n % 16384 := by
  unfold quantize maskFrac
  rw [cLong_eval_nonneg h0 h1 h2]

/-- The quantized displacement of two identical positions vanishes, so the
fast squared distance of a coincident pair is 0. -/
theorem fastDist2_self (cell : UnitCellM) (p : Vec3Z) : fastDist2 cell p p = 0 := by
  simp [fastDist2, maskFrac, signFold]

/-!  Concrete crystals used as test inputs below. -/

/-- An orthorhombic cell with unit edges (orthogonalization matrix = identity). -/
def cellUnit : UnitCellM := ⟨1, 1, 1, 1, 0, 0, 1, 0, 1⟩

/-- A cubic cell with edge 10. -/
def cellTen : UnitCellM := ⟨10, 10, 10, 10, 0, 0, 10, 0, 10⟩

/-- A P1-like symmetry provider: multiplicity 1, asymmetric unit = whole cell. -/
def sgIdentity : SpaceGroupM := ⟨1, fun x y z => [⟨x, y, z⟩], 1, 1, 1⟩

/-- A multiplicity-2 provider (translation by half a cell along x), asymmetric
unit = whole cell (so restriction is disabled). -/
def sgTwoFold : SpaceGroupM :=
  ⟨2, fun x y z => [⟨x, y, z⟩, ⟨x + 1/2, y, z⟩], 1, 1, 1⟩

/-- A multiplicity-2 provider with asymmetric-unit bounds `(1/2, 1, 1)`
(volume product 1/2 < 0.6, so restriction is enabled). -/
def sgHalfCell : SpaceGroupM :=
  ⟨2, fun x y z => [⟨x, y, z⟩, ⟨x + 1/10, y, z⟩], 1/2, 1, 1⟩

/-- A single component at the origin with a (nonnull) species. -/
def compSingle : List ScatteringComponent := [⟨0, 0, 0, 1, 1, some ⟨1, 1, 0⟩⟩]

/-- A single component at `(1/10, 1/10, 1/10)`. -/
def compTenth : List ScatteringComponent :=
  [⟨1/10, 1/10, 1/10, 1, 1, some ⟨1, 1, 0⟩⟩]

theorem useAsymUnitFlag_sgIdentity : useAsymUnitFlag sgIdentity = false := by
  simp only [useAsymUnitFlag, sgIdentity, decide_eq_false_iff_not]
  norm_num

theorem useAsymUnitFlag_sgTwoFold : useAsymUnitFlag sgTwoFold = false := by
  simp only [useAsymUnitFlag, sgTwoFold, decide_eq_false_iff_not]
  norm_num

theorem useAsymUnitFlag_sgHalfCell : useAsymUnitFlag sgHalfCell = true := by
  simp only [useAsymUnitFlag, sgHalfCell, decide_eq_true_eq]
  norm_num

/-- The distance table of two coincident components under the multiplicity-1
provider: each one's sole neighbour is the other at squared distance 0. -/
theorem calcDistTableFast_coincident_pair (cell : UnitCellM)
    (x y z o1 o2 d1 d2 : ℚ) (m : ℚ) (pw pw2 : ScatteringPowerM) :
    calcDistTableFast cell sgIdentity m
      [⟨x, y, z, o1, d1, some pw⟩, ⟨x, y, z, o2, d2, some pw2⟩] =
      [⟨0, 0, [⟨1, 0, 0⟩]⟩, ⟨1, 0, [⟨0, 0, 0⟩]⟩] := by
  have hsym : sgIdentity.allSymmetrics = fun x y z => [⟨x, y, z⟩] := rfl
  have hbp : buildPositions false (retainZ (limitsZof cell sgIdentity m))
      (insideZ (limitsZof cell sgIdentity m)) posQuantize sgIdentity
      [⟨x, y, z, o1, d1, some pw⟩, ⟨x, y, z, o2, d2, some pw2⟩] =
      ([(0, 0, posQuantize ⟨x, y, z⟩), (1, 0, posQuantize ⟨x, y, z⟩)],
        [(0, 0), (1, 0)]) := by
    simp [buildPositions, collectComponent, hsym, List.enum, List.enumFrom]
  have hnb0 : neighbourList (fastDist2 cell)
      [(0, 0, posQuantize ⟨x, y, z⟩), (1, 0, posQuantize ⟨x, y, z⟩)] 0 =
      [⟨1, 0, 0⟩] := by
    simp [neighbourList, List.enum, List.enumFrom, fastDist2_self]
  have hnb1 : neighbourList (fastDist2 cell)
      [(0, 0, posQuantize ⟨x, y, z⟩), (1, 0, posQuantize ⟨x, y, z⟩)] 1 =
      [⟨0, 0, 0⟩] := by
    simp [neighbourList, List.enum, List.enumFrom, fastDist2_self]
  simp only [calcDistTableFast, useAsymUnitFlag_sgIdentity]
  rw [hbp]
  simp [List.enum, List.enumFrom, hnb0, hnb1]

/-- Claim C5: for a crystal containing exactly two sites of the same species
placed at identical coordinates (distance 0, both within `overlapDist`), the
dynamical-occupancy correction factor computed by `CalcDynPopCorr` for each of
those sites equals 0.5 — with the arguments of the call site
(`CalcDynPopCorr(1.,.5)`, line 285): each site's one overlapping neighbour at
distance 0 contributes `corr = |(1 - 0 - 0.5)/(1 - 0.5)| = 1`, and the factor
is `1/(1+corr) = 0.5`.  Stated for any unit cell, any coordinates, any
occupancies and any (shared) species under the multiplicity-1 symmetry
provider, so that the coincident partner is the only overlap. -/
theorem calcDynPopCorr_coincident_pair_half (cell : UnitCellM)
    (x y z o1 o2 d1 d2 : ℚ) (pw : ScatteringPowerM) :
    calcDynPopCorrFactors 1 (1/2)
      [⟨x, y, z, o1, d1, some pw⟩, ⟨x, y, z, o2, d2, some pw⟩]
      (calcDistTableFast cell sgIdentity 1
        [⟨x, y, z, o1, d1, some pw⟩, ⟨x, y, z, o2, d2, some pw⟩]) =
      [1/2, 1/2] := by
  rw [calcDistTableFast_coincident_pair]
  simp [calcDynPopCorrFactors, calcDynPopCorrFactor, List.enum, List.enumFrom]
  norm_num

/-!  Properties of `GetMinDistanceTable`. -/

/-- A neighbour record qualifies against the untouched entry (value 10000):
this is the update condition of lines 371-374 evaluated at `dist = 10000`. -/
def qualifiesForMin (hood : NeighbourHoodQ) (minq : ℚ) (j : ℕ)
    (nb : NeighbourQ) : Prop :=
  nb.mNeighbourIndex = j ∧ nb.mDist2 < 10000 ∧
    (nb.mDist2 > minq ∨
      (hood.mIndex ≠ nb.mNeighbourIndex ∧
       hood.mUniquePosSymmetryIndex ≠ nb.mNeighbourSymmetryIndex))

theorem foldl_minDistStep_untouched (hood : NeighbourHoodQ) (minq : ℚ) (j : ℕ)
    (l : List NeighbourQ)
    (h : ∀ nb ∈ l, ¬ qualifiesForMin hood minq j nb) :
    l.foldl (minDistStep hood minq j) 10000 = 10000 := by
  induction l with
  | nil => rfl
  | cons nb l ih =>
    have h1 : minDistStep hood minq j 10000 nb = 10000 := by
      unfold minDistStep
      rw [if_neg]
      exact h nb (List.mem_cons_self nb l)
    rw [List.foldl_cons, h1]
    exact ih (fun nb' hm => h nb' (List.mem_cons_of_mem nb hm))

theorem minDistScanEntry_untouched (hood : NeighbourHoodQ) (minq : ℚ) (j : ℕ)
    (h : ∀ nb ∈ hood.mvNeighbour, ¬ qualifiesForMin hood minq j nb) :
    minDistScanEntry hood minq j = 10000 :=
  foldl_minDistStep_untouched hood minq j hood.mvNeighbour h

/-- Claim C3 (amended): the matrix returned by `GetMinDistanceTable` is
symmetric, and the diagonal entry `(i,i)` is zero for every component `i`
that has no recorded self-symmetry contact (an entry of its own neighbour
list pointing back at component `i`).  (A qualifying self-contact makes the
diagonal entry the distance to the nearest symmetry image instead — see the
counterexample for the claim as stated.) -/
theorem getMinDistanceTable_symm_and_diag (hoods : List NeighbourHoodQ)
    (minD : ℚ) :
    (∀ i j, getMinDistanceTable hoods minD i j = getMinDistanceTable hoods minD j i) ∧
    (∀ i, (∀ nb ∈ (hoods.getD i default).mvNeighbour, nb.mNeighbourIndex ≠ i) →
      getMinDistanceTable hoods minD i i = 0) := by
  constructor
  · intro i j
    simp only [getMinDistanceTable]
    rcases lt_trichotomy i j with h | h | h
    · rw [if_neg (by omega), if_pos (by omega)]
    · rw [h]
    · rw [if_pos (by omega), if_neg (by omega)]
  · intro i h
    have hs : minDistScanEntry (hoods.getD i default) (minPar minD) i = 10000 := by
      apply minDistScanEntry_untouched
      intro nb hm hq
      exact h nb hm hq.1
    simp only [getMinDistanceTable, if_pos le_rfl]
    rw [hs]
    have hf : minDistFix 10000 = 0 := by
      unfold minDistFix
      rw [if_pos (by norm_num)]
    rw [hf]
    simp

/-- Witness for the amended claim C3, at the single-component crystal with no
neighbours. -/
theorem getMinDistanceTable_symm_and_diag_witness :
    (getMinDistanceTable [⟨0, 0, []⟩] (-1) 0 1 =
      getMinDistanceTable [⟨0, 0, []⟩] (-1) 1 0) ∧
    getMinDistanceTable [⟨0, 0, []⟩] (-1) 0 0 = 0 :=
  ⟨(getMinDistanceTable_symm_and_diag [⟨0, 0, []⟩] (-1)).1 0 1,
   (getMinDistanceTable_symm_and_diag [⟨0, 0, []⟩] (-1)).2 0
     (by intro nb hm; simp at hm)⟩

/-- The distance table of a single component at the origin under the
two-fold provider `sgTwoFold` in the unit cell: the canonical representative
is the second image, and the single neighbour record is the self-contact at
squared distance `(8191/16384)²`. -/
theorem calcDistTableFast_twoFold :
    calcDistTableFast cellUnit sgTwoFold 3 compSingle =
      [⟨0, 1, [⟨0, 0, (8191 : ℚ) * 8191 / (16384 * 16384)⟩]⟩] := by
  have hsym : sgTwoFold.allSymmetrics =
      fun x y z => [⟨x, y, z⟩, ⟨x + 1/2, y, z⟩] := rfl
  have hq0 : quantize 0 = 0 := by
    rw [quantize_eval (by norm_num : (0 : ℚ) * 16384 = ((0 : ℤ) : ℚ))]
    decide
  have hqh : quantize ((2 : ℚ)⁻¹) = 8192 := by
    rw [quantize_eval (by norm_num : ((2 : ℚ)⁻¹) * 16384 = ((8192 : ℤ) : ℚ))]
    decide
  have hbp : buildPositions false (retainZ (limitsZof cellUnit sgTwoFold 3))
      (insideZ (limitsZof cellUnit sgTwoFold 3)) posQuantize sgTwoFold
      [⟨0, 0, 0, 1, 1, some ⟨1, 1, 0⟩⟩] =
      ([(0, 0, ⟨0, 0, 0⟩), (0, 1, ⟨8192, 0, 0⟩)], [(1, 1)]) := by
    simp [buildPositions, collectComponent, hsym, posQuantize, hq0, hqh,
      List.enum, List.enumFrom]
  have hnb : neighbourList (fastDist2 cellUnit)
      [(0, 0, (⟨0, 0, 0⟩ : Vec3Z)), (0, 1, ⟨8192, 0, 0⟩)] 1 =
      [⟨0, 0, (8191 : ℚ) * 8191 / (16384 * 16384)⟩] := by
    simp [neighbourList, List.enum, List.enumFrom, fastDist2, maskFrac,
      signFold, cellUnit]
    norm_num
  simp only [calcDistTableFast, useAsymUnitFlag_sgTwoFold, compSingle]
  rw [hbp]
  simp [List.enum, List.enumFrom, hnb]

/-- Counterexample to claim C3 as stated: for the single atom at the origin
with a two-fold symmetry image at `x+1/2`, `GetMinDistanceTable(-1)` puts the
nonzero distance `8191/16384` (the quantized distance to the atom's own
symmetry image) on the diagonal. -/
theorem getMinDistanceTable_diag_counterexample :
    getMinDistanceTable (calcDistTableFast cellUnit sgTwoFold 3 compSingle)
      (-1) 0 0 = (8191 : ℝ) / 16384 ∧ ((8191 : ℝ) / 16384) ≠ 0 := by
  constructor
  · rw [calcDistTableFast_twoFold]
    have hmp : minPar (-1) = -1 := by
      unfold minPar
      rw [if_pos (by norm_num)]
    have hs : minDistScanEntry
        (([⟨0, 1, [⟨0, 0, (8191 : ℚ) * 8191 / (16384 * 16384)⟩]⟩] :
          List NeighbourHoodQ).getD 0 default) (-1) 0 =
        (8191 : ℚ) * 8191 / (16384 * 16384) := by
      norm_num [minDistScanEntry, minDistStep]
    simp only [getMinDistanceTable, if_pos le_rfl]
    rw [hmp, hs]
    have hf : minDistFix ((8191 : ℚ) * 8191 / (16384 * 16384)) =
        (8191 : ℚ) * 8191 / (16384 * 16384) := by
      unfold minDistFix
      rw [if_neg (by norm_num)]
    rw [hf]
    have hc : (((8191 : ℚ) * 8191 / (16384 * 16384) : ℚ) : ℝ) =
        ((8191 : ℝ) / 16384) ^ 2 := by
      push_cast
      ring
    rw [hc, Real.sqrt_sq (by norm_num)]
  · norm_num

/-- Claim C4 (amended): an entry `(i,j)` of `GetMinDistanceTable` for which no
contact qualified during the scan is reset from the 10000 sentinel to 0
before the square root, so it reports 0 — not the square-rooted sentinel. -/
theorem getMinDistanceTable_no_contact_zero (hoods : List NeighbourHoodQ)
    (minD : ℚ) (i j : ℕ)
    (h : ∀ nb ∈ (hoods.getD (max i j) default).mvNeighbour,
      ¬ qualifiesForMin (hoods.getD (max i j) default) (minPar minD)
        (min i j) nb) :
    getMinDistanceTable hoods minD i j = 0 := by
  by_cases hji : j ≤ i
  · have hmax : max i j = i := by omega
    have hmin : min i j = j := by omega
    rw [hmax, hmin] at h
    simp only [getMinDistanceTable, if_pos hji]
    rw [minDistScanEntry_untouched _ _ _ h]
    have hf : minDistFix 10000 = 0 := by
      unfold minDistFix
      rw [if_pos (by norm_num)]
    rw [hf]
    simp
  · have hmax : max i j = j := by omega
    have hmin : min i j = i := by omega
    rw [hmax, hmin] at h
    simp only [getMinDistanceTable, if_neg hji]
    rw [minDistScanEntry_untouched _ _ _ h]
    have hf : minDistFix 10000 = 0 := by
      unfold minDistFix
      rw [if_pos (by norm_num)]
    rw [hf]
    simp

/-- Witness for the amended claim C4. -/
theorem getMinDistanceTable_no_contact_zero_witness :
    getMinDistanceTable [⟨0, 0, []⟩, ⟨1, 0, []⟩] (-1) 0 1 = 0 :=
  getMinDistanceTable_no_contact_zero [⟨0, 0, []⟩, ⟨1, 0, []⟩] (-1) 0 1
    (by intro nb hm; simp at hm)

/-- The distance table of a single component at the origin under the
multiplicity-1 provider: no neighbours at all. -/
theorem calcDistTableFast_p1Single :
    calcDistTableFast cellUnit sgIdentity 3 compSingle = [⟨0, 0, []⟩] := by
  have hsym : sgIdentity.allSymmetrics = fun x y z => [⟨x, y, z⟩] := rfl
  have hbp : buildPositions false (retainZ (limitsZof cellUnit sgIdentity 3))
      (insideZ (limitsZof cellUnit sgIdentity 3)) posQuantize sgIdentity
      [⟨0, 0, 0, 1, 1, some ⟨1, 1, 0⟩⟩] =
      ([(0, 0, posQuantize ⟨0, 0, 0⟩)], [(0, 0)]) := by
    simp [buildPositions, collectComponent, hsym, List.enum, List.enumFrom]
  simp only [calcDistTableFast, useAsymUnitFlag_sgIdentity, compSingle]
  rw [hbp]
  simp [List.enum, List.enumFrom, neighbourList]

/-- Counterexample to claim C4 as stated: for a single atom with no contacts
at all, the `(0,0)` entry of `GetMinDistanceTable(-1)` is 0, not the large
square-rooted sentinel `sqrt(10000) = 100`. -/
theorem getMinDistanceTable_sentinel_counterexample :
    getMinDistanceTable (calcDistTableFast cellUnit sgIdentity 3 compSingle)
      (-1) 0 0 = 0 ∧ (0 : ℝ) ≠ Real.sqrt 10000 := by
  constructor
  · rw [calcDistTableFast_p1Single]
    have hs : minDistScanEntry
        (([⟨0, 0, []⟩] : List NeighbourHoodQ).getD 0 default)
        (minPar (-1)) 0 = 10000 := by
      apply minDistScanEntry_untouched
      intro nb hm
      simp at hm
    simp only [getMinDistanceTable, if_pos le_rfl]
    rw [hs]
    have hf : minDistFix 10000 = 0 := by
      unfold minDistFix
      rw [if_pos (by norm_num)]
    rw [hf]
    simp
  · have h : Real.sqrt 10000 = 100 := by
      rw [show (10000 : ℝ) = 100 ^ 2 by norm_num, Real.sqrt_sq (by norm_num)]
    rw [h]
    norm_num

/-!  The canonical-key invariant of the pairwise parameter maps. -/

theorem pairKey_comm (a b : ℕ) : pairKey a b = pairKey b a := by
  unfold pairKey
  rcases lt_trichotomy a b with h | h | h
  · rw [if_pos h, if_neg (by omega)]
  · rw [h]
  · rw [if_neg (by omega), if_pos h]

theorem pairKey_le (a b : ℕ) : (pairKey a b).1 ≤ (pairKey a b).2 := by
  unfold pairKey
  split
  · simp only
    omega
  · simp only
    omega

theorem lookup_none_not_mem {α : Type} {m : List ((ℕ × ℕ) × α)} {k : ℕ × ℕ}
    (h : (List.lookup k m).isSome = false) : k ∉ m.map Prod.fst := by
  induction m with
  | nil => simp
  | cons e t ih =>
    obtain ⟨ek, ev⟩ := e
    intro hmem
    simp only [List.lookup] at h
    by_cases hk : k = ek
    · simp [hk] at h
    · have hbeq : (k == ek) = false := beq_eq_false_iff_ne.mpr hk
      rw [hbeq] at h
      simp only [List.map_cons, List.mem_cons] at hmem
      rcases hmem with h1 | h1
      · exact hk h1
      · exact ih h h1

theorem canonicalKeys_mapStore {α : Type} {m : List ((ℕ × ℕ) × α)}
    (k : ℕ × ℕ) (v : α) (hm : CanonicalKeys m) (hk : k.1 ≤ k.2) :
    CanonicalKeys (mapStore m k v) := by
  unfold mapStore
  by_cases hs : (List.lookup k m).isSome
  · rw [if_pos hs]
    constructor
    · intro e he
      rcases List.mem_map.mp he with ⟨e0, he0, heq⟩
      by_cases h0 : e0.1 = k
      · rw [if_pos h0] at heq
        rw [← heq]
        exact hk
      · rw [if_neg h0] at heq
        rw [← heq]
        exact hm.1 e0 he0
    · have hkeys : (m.map (fun e => if e.1 = k then (k, v) else e)).map Prod.fst =
          m.map Prod.fst := by
        rw [List.map_map]
        apply List.map_congr_left
        intro e _
        by_cases h0 : e.1 = k
        · simp [h0]
        · simp [h0]
      rw [hkeys]
      exact hm.2
  · rw [if_neg hs]
    constructor
    · intro e he
      rcases List.mem_append.mp he with h1 | h1
      · exact hm.1 e h1
      · rw [List.mem_singleton.mp h1]
        exact hk
    · rw [List.map_append]
      rw [Bool.not_eq_true] at hs
      apply List.Nodup.append hm.2 (by simp)
      intro x hx hx2
      rw [List.map_singleton, List.mem_singleton] at hx2
      rw [hx2] at hx
      exact lookup_none_not_mem hs hx

theorem canonicalKeys_mapErase {α : Type} {m : List ((ℕ × ℕ) × α)}
    (k : ℕ × ℕ) (hm : CanonicalKeys m) : CanonicalKeys (mapErase m k) := by
  unfold mapErase
  constructor
  · intro e he
    exact hm.1 e (List.mem_of_mem_filter he)
  · exact List.Nodup.sublist (List.Sublist.map Prod.fst (List.filter_sublist m)) hm.2

theorem canonicalKeys_applyPairParOp (st : VBumpMergePar × VBondValenceRo)
    (op : PairParOp) (h1 : CanonicalKeys st.1) (h2 : CanonicalKeys st.2) :
    CanonicalKeys (applyPairParOp st op).1 ∧ CanonicalKeys (applyPairParOp st op).2 := by
  cases op with
  | setBump a b d =>
    constructor
    · simp only [applyPairParOp, setBumpMergeDistanceDefault, setBumpMergeDistance]
      split
      · exact canonicalKeys_mapStore _ _ h1 (pairKey_le a b)
      · exact canonicalKeys_mapStore _ _ h1 (pairKey_le a b)
    · exact h2
  | removeBump a b =>
    exact ⟨canonicalKeys_mapErase _ h1, h2⟩
  | addRo a b ro =>
    exact ⟨h1, canonicalKeys_mapStore _ _ h2 (pairKey_le a b)⟩
  | removeRo a b =>
    exact ⟨h1, canonicalKeys_mapErase _ h2⟩

theorem canonicalKeys_applyPairParOps (ops : List PairParOp) :
    CanonicalKeys (applyPairParOps ops).1 ∧ CanonicalKeys (applyPairParOps ops).2 := by
  unfold applyPairParOps
  have base : CanonicalKeys (([], []) : VBumpMergePar × VBondValenceRo).1 ∧
      CanonicalKeys (([], []) : VBumpMergePar × VBondValenceRo).2 := by
    constructor <;> exact ⟨by intro e he; simp at he, by simp⟩
  generalize hst : (([], []) : VBumpMergePar × VBondValenceRo) = st
  rw [hst] at base
  clear hst
  induction ops generalizing st with
  | nil => exact base
  | cons op t ih =>
    rw [List.foldl_cons]
    exact ih _ (canonicalKeys_applyPairParOp st op base.1 base.2)

theorem nodup_all_eq_length_le_one {α : Type} {l : List α} {c : α}
    (hn : l.Nodup) (ha : ∀ x ∈ l, x = c) : l.length ≤ 1 := by
  match l with
  | [] => simp
  | [x] => simp
  | x :: y :: t =>
    exfalso
    have hx : x = c := ha x (by simp)
    have hy : y = c := ha y (by simp)
    rw [List.nodup_cons] at hn
    exact hn.1 (by rw [hx, hy]; simp)

theorem canonicalKeys_unordered_pair_count {α : Type}
    {m : List ((ℕ × ℕ) × α)} (hm : CanonicalKeys m) (a b : ℕ) :
    (m.filter (fun e => decide (e.1 = (a, b) ∨ e.1 = (b, a)))).length ≤ 1 := by
  set l := m.filter (fun e => decide (e.1 = (a, b) ∨ e.1 = (b, a))) with hl
  have hlen : l.length = (l.map Prod.fst).length := by simp
  rw [hlen]
  apply nodup_all_eq_length_le_one (c := pairKey a b)
  · exact List.Nodup.sublist (List.Sublist.map Prod.fst (List.filter_sublist m)) hm.2
  · intro x hx
    rcases List.mem_map.mp hx with ⟨e, he, hfst⟩
    have hcanon : e.1.1 ≤ e.1.2 := hm.1 e (List.mem_of_mem_filter he)
    have hor : e.1 = (a, b) ∨ e.1 = (b, a) := by
      have := List.of_mem_filter he
      simpa using this
    rw [← hfst]
    unfold pairKey
    rcases hor with h | h
    · rw [h] at hcanon ⊢
      split
      · rfl
      · have : a = b := by omega
        rw [this]
    · rw [h] at hcanon ⊢
      split
      · have : a = b := by omega
        rw [this]
      · rfl

/-- Claim C8: after any sequence of `SetBumpMergeDistance`,
`RemoveBumpMergeDistance`, `AddBondValenceRo` and `RemoveBondValenceRo` calls
starting from the freshly-constructed crystal, each pairwise parameter map
keeps the canonical-key invariant (smaller handle first, no duplicate keys),
each unordered species pair owns at most one entry, and every one of the four
operations is insensitive to the order of its two species arguments (so
setting a pair in either order overwrites that same single entry). -/
theorem pairParMaps_canonical_invariant (ops : List PairParOp) :
    (CanonicalKeys (applyPairParOps ops).1 ∧ CanonicalKeys (applyPairParOps ops).2) ∧
    (∀ a b : ℕ,
      ((applyPairParOps ops).1.filter
        (fun e => decide (e.1 = (a, b) ∨ e.1 = (b, a)))).length ≤ 1 ∧
      ((applyPairParOps ops).2.filter
        (fun e => decide (e.1 = (a, b) ∨ e.1 = (b, a)))).length ≤ 1) ∧
    ((∀ m a b d, setBumpMergeDistanceDefault m a b d = setBumpMergeDistanceDefault m b a d) ∧
     (∀ m a b, removeBumpMergeDistance m a b = removeBumpMergeDistance m b a) ∧
     (∀ m a b ro, addBondValenceRo m a b ro = addBondValenceRo m b a ro) ∧
     (∀ m a b, removeBondValenceRo m a b = removeBondValenceRo m b a)) := by
  refine ⟨canonicalKeys_applyPairParOps ops, ?_, ?_, ?_, ?_, ?_⟩
  · intro a b
    exact ⟨canonicalKeys_unordered_pair_count (canonicalKeys_applyPairParOps ops).1 a b,
           canonicalKeys_unordered_pair_count (canonicalKeys_applyPairParOps ops).2 a b⟩
  · intro m a b d
    unfold setBumpMergeDistanceDefault setBumpMergeDistance
    rw [pairKey_comm]
    by_cases hab : a = b
    · rw [hab]
    · rw [if_neg hab, if_neg (fun h => hab h.symm)]
  · intro m a b
    unfold removeBumpMergeDistance
    rw [pairKey_comm]
  · intro m a b ro
    unfold addBondValenceRo
    rw [pairKey_comm]
  · intro m a b
    unfold removeBondValenceRo
    rw [pairKey_comm]

/-!  Equivalence of `GetBumpMergeCost` with its specification. -/

theorem lookup_some_mem {α : Type} {m : List ((ℕ × ℕ) × α)} {k : ℕ × ℕ} {v : α}
    (h : List.lookup k m = some v) : (k, v) ∈ m := by
  induction m with
  | nil => simp [List.lookup] at h
  | cons e t ih =>
    obtain ⟨ek, ev⟩ := e
    simp only [List.lookup] at h
    by_cases hk : k = ek
    · rw [hk, beq_self_eq_true] at h
      simp only [Option.some.injEq] at h
      rw [hk, ← h]
      exact List.mem_cons_self _ _
    · rw [beq_eq_false_iff_ne.mpr hk] at h
      exact List.mem_cons_of_mem _ (ih h)

/-- A left fold that adds `(g b).getD 0` at each step accumulates the sum of
the `filterMap`. -/
theorem foldl_eq_add_filterMap_sum {β : Type} (g : β → Option ℝ)
    (step : ℝ → β → ℝ) (l : List β)
    (hstep : ∀ acc b, b ∈ l → step acc b = acc + (g b).getD 0) :
    ∀ acc : ℝ, l.foldl step acc = acc + (l.filterMap g).sum := by
  induction l with
  | nil => intro acc; simp
  | cons b t ih =>
    intro acc
    rw [List.foldl_cons, List.filterMap_cons]
    have hb := hstep acc b (List.mem_cons_self b t)
    have iht := ih (fun acc b hm => hstep acc b (List.mem_cons_of_mem _ hm))
    rw [iht (step acc b), hb]
    cases hg : g b with
    | none => simp [hg]
    | some x => simp [hg]; ring

theorem sum_flatMap_eq {β : Type} (f : β → List ℝ) (l : List β) :
    (l.flatMap f).sum = (l.map (fun b => (f b).sum)).sum := by
  induction l with
  | nil => simp
  | cons b t ih => simp [List.flatMap_cons, ih]

theorem filterMap_some_sum {β : Type} (f : β → ℝ) (l : List β) :
    (l.filterMap (fun b => some (f b))).sum = (l.map f).sum := by
  induction l with
  | nil => simp
  | cons b t ih => simp [List.filterMap_cons, ih]

/-- Pointwise: one step of the code's neighbour loop adds exactly the
specification's term for that pair (0 when the pair is absent or not below
threshold; the boundary `d² = dmin²` contributes 0 on both sides). -/
theorem bumpMergeStep_eq_term (pars : VBumpMergePar) (i1 i2 : ℕ) (d2 : ℚ)
    (acc2 : ℝ) (hpos : ∀ par ∈ pars, 0 < par.2.mDist2) (hnn : (0 : ℚ) ≤ d2) :
    bumpMergeStep pars i1 i2 acc2 d2 =
      acc2 + (bumpMergeTermSpec pars i1 i2 d2).getD 0 := by
  unfold bumpMergeStep bumpMergeTermSpec
  cases hlk : List.lookup (pairKey i1 i2) pars with
  | none => simp
  | some par =>
    have hdmin : (0 : ℚ) < par.mDist2 := hpos _ (lookup_some_mem hlk)
    simp only
    rcases lt_trichotomy d2 par.mDist2 with hlt | heq | hgt
    · rw [if_neg (not_lt.mpr (le_of_lt hlt)), if_pos hlt, Option.getD_some]
      have hs : Real.sqrt (((d2 : ℚ) : ℝ) / ((par.mDist2 : ℚ) : ℝ)) =
          Real.sqrt ((d2 : ℚ) : ℝ) / Real.sqrt ((par.mDist2 : ℚ) : ℝ) :=
        Real.sqrt_div (by exact_mod_cast hnn) _
      rw [hs]
      by_cases hco : par.mCanOverlap <;> simp [hco, sq]
    · have hratio : ((d2 : ℚ) : ℝ) / ((par.mDist2 : ℚ) : ℝ) = 1 := by
        rw [heq]
        exact div_self (by exact_mod_cast ne_of_gt hdmin)
      rw [if_neg (by rw [heq]; exact lt_irrefl _), hratio, Real.sqrt_one]
      by_cases hco : par.mCanOverlap <;> simp [hco, heq]
    · rw [if_pos hgt, if_neg (not_lt.mpr (le_of_lt hgt))]
      simp

/-- Claim C6: `GetBumpMergeCost` returns 0 when no pairwise parameters are
configured or when the scale factor is below `1e-5`; otherwise it returns the
sum, over all neighbour pairs whose species pair is present in the table and
whose squared distance is below that pair's threshold, of
`(0.5·sin(π·(1-d/dmin))/0.1)²` for can-overlap pairs and
`(tan(π·0.49999·(1-d/dmin))/0.1)²` otherwise, multiplied by the space-group
multiplicity and then by the scale factor.  (The code's `≤`-threshold test
and ratio-under-the-root `sqrt(d²/dmin²)` coincide with the specification's
strict test and `d/dmin` because the boundary term vanishes.)  Stated under
the well-formedness conditions that every configured squared minimum distance
is positive and every tabulated squared distance is nonnegative. -/
theorem getBumpMergeCost_eq_spec (sgNbSym : ℕ) (pars : VBumpMergePar)
    (scale : ℚ) (comps : List ScatteringComponent)
    (hoods : List NeighbourHoodQ)
    (hpos : ∀ par ∈ pars, 0 < par.2.mDist2)
    (hd2 : ∀ hood ∈ hoods, ∀ nb ∈ hood.mvNeighbour, 0 ≤ nb.mDist2) :
    getBumpMergeCost sgNbSym pars scale comps hoods =
      bumpMergeCostSpec sgNbSym pars scale comps hoods := by
  unfold getBumpMergeCost bumpMergeCostSpec
  by_cases hp : pars = []
  · rw [if_pos hp, if_pos (Or.inl hp)]
  · rw [if_neg hp]
    by_cases hsc : scale < 1/100000
    · rw [if_pos hsc, if_pos (Or.inr hsc)]
    · rw [if_neg hsc, if_neg (by push_neg; exact ⟨hp, not_lt.mp hsc⟩)]
      simp only
      congr 1
      congr 1
      rw [sum_flatMap_eq]
      have houter : ∀ acc : ℝ, hoods.foldl
          (fun acc hood =>
            hood.mvNeighbour.foldl
              (fun acc2 nb =>
                bumpMergeStep pars
                  (handleOf (comps.getD hood.mIndex default).mpScattPow)
                  (handleOf (comps.getD nb.mNeighbourIndex default).mpScattPow)
                  acc2 nb.mDist2) acc) acc =
          acc + (hoods.filterMap (fun hood =>
            some ((hood.mvNeighbour.filterMap
              (fun nb =>
                bumpMergeTermSpec pars
                  (handleOf (comps.getD hood.mIndex default).mpScattPow)
                  (handleOf (comps.getD nb.mNeighbourIndex default).mpScattPow)
                  nb.mDist2)).sum))).sum := by
        apply foldl_eq_add_filterMap_sum
        intro acc hood hh
        rw [foldl_eq_add_filterMap_sum
          (fun nb =>
            bumpMergeTermSpec pars
              (handleOf (comps.getD hood.mIndex default).mpScattPow)
              (handleOf (comps.getD nb.mNeighbourIndex default).mpScattPow)
              nb.mDist2)
          (fun acc2 nb =>
            bumpMergeStep pars
              (handleOf (comps.getD hood.mIndex default).mpScattPow)
              (handleOf (comps.getD nb.mNeighbourIndex default).mpScattPow)
              acc2 nb.mDist2)
          hood.mvNeighbour
          (fun acc2 nb hnb => bumpMergeStep_eq_term pars _ _ nb.mDist2 acc2 hpos
            (hd2 hood hh nb hnb)) acc]
        simp
      rw [houter 0, zero_add]
      exact filterMap_some_sum _ hoods

/-- Witness for claim C6 at a concrete input (one configured pair with
positive squared minimum distance, empty neighbour table). -/
theorem getBumpMergeCost_eq_spec_witness :
    (∀ par ∈ ([((1, 2), ⟨1, true⟩)] : VBumpMergePar), 0 < par.2.mDist2) ∧
    getBumpMergeCost 2 [((1, 2), ⟨1, true⟩)] 1 [] [] =
      bumpMergeCostSpec 2 [((1, 2), ⟨1, true⟩)] 1 [] [] :=
  ⟨by intro par hp; rw [List.mem_singleton.mp hp]; norm_num,
   getBumpMergeCost_eq_spec 2 [((1, 2), ⟨1, true⟩)] 1 [] []
     (by intro par hp; rw [List.mem_singleton.mp hp]; norm_num)
     (by intro hood hh; simp at hh)⟩

/-!  Equivalence of `CalcBondValenceSum` with its specification, and the
occupancy actually used. -/

theorem foldl_count_sum {β : Type} (g : β → Option ℝ)
    (step : ℕ × ℝ → β → ℕ × ℝ) (l : List β)
    (hstep : ∀ acc b, b ∈ l → step acc b =
      match g b with
      | some t => (acc.1 + 1, acc.2 + t)
      | none => acc) :
    ∀ acc : ℕ × ℝ, l.foldl step acc =
      (acc.1 + (l.filterMap g).length, acc.2 + (l.filterMap g).sum) := by
  induction l with
  | nil => intro acc; simp
  | cons b t ih =>
    intro acc
    rw [List.foldl_cons, List.filterMap_cons,
      ih (fun acc b hm => hstep acc b (List.mem_cons_of_mem _ hm)),
      hstep acc b (List.mem_cons_self b t)]
    cases hg : g b with
    | none => simp
    | some x =>
      simp only [List.length_cons, List.sum_cons, Prod.mk.injEq]
      constructor
      · omega
      · ring

theorem bondValenceStep_eq (ros : VBondValenceRo) (p1 p2 : ℕ) (oc : ℝ)
    (d2 : ℚ) (acc : ℕ × ℝ) :
    bondValenceStep ros p1 p2 oc d2 acc =
      match bondValenceTermSpec ros p1 p2 oc d2 with
      | some t => (acc.1 + 1, acc.2 + t)
      | none => acc := by
  unfold bondValenceStep bondValenceTermSpec
  cases List.lookup (pairKey p1 p2) ros <;> simp

/-- Claim C7 (amended): `CalcBondValenceSum` accumulates, for each component
`i` and each neighbour whose species pair has a configured reference bond
length `R0`, the term `occ_eff(neighbour) · exp((R0 - d)/0.37)` — where
`occ_eff` is the neighbour's dynamically-corrected occupancy
`mOccupancy * mDynPopCorr` — and omits from the result every component that
accumulated zero contributing bonds. -/
theorem calcBondValenceSum_eq_spec (ros : VBondValenceRo)
    (comps : List ScatteringComponent) (hoods : List NeighbourHoodQ) :
    calcBondValenceSum ros comps hoods = bondValenceSumSpec ros comps hoods := by
  unfold calcBondValenceSum bondValenceSumSpec
  congr 1
  funext ic
  simp only
  rw [foldl_count_sum
    (fun nb =>
      bondValenceTermSpec ros (handleOf ic.2.mpScattPow)
        (handleOf (comps.getD nb.mNeighbourIndex default).mpScattPow)
        (((comps.getD nb.mNeighbourIndex default).mOccupancy : ℝ)
          * ((comps.getD nb.mNeighbourIndex default).mDynPopCorr : ℝ))
        nb.mDist2)
    (fun acc nb =>
      bondValenceStep ros (handleOf ic.2.mpScattPow)
        (handleOf (comps.getD nb.mNeighbourIndex default).mpScattPow)
        (((comps.getD nb.mNeighbourIndex default).mOccupancy : ℝ)
          * ((comps.getD nb.mNeighbourIndex default).mDynPopCorr : ℝ))
        nb.mDist2 acc)
    (hoods.getD ic.1 default).mvNeighbour
    (fun acc nb hm => bondValenceStep_eq ros _ _ _ _ acc) (0, 0)]
  simp only [Nat.zero_add, zero_add]
  by_cases hz : ((hoods.getD ic.1 default).mvNeighbour.filterMap
      (fun nb =>
        bondValenceTermSpec ros (handleOf ic.2.mpScattPow)
          (handleOf (comps.getD nb.mNeighbourIndex default).mpScattPow)
          (((comps.getD nb.mNeighbourIndex default).mOccupancy : ℝ)
            * ((comps.getD nb.mNeighbourIndex default).mDynPopCorr : ℝ))
          nb.mDist2)).length = 0
  · rw [if_neg (by omega), if_pos (List.length_eq_zero.mp hz)]
  · rw [if_pos hz, if_neg (fun hc => hz (by rw [hc]; rfl))]

/-- Two coincident same-species components whose stored dynamical occupancy
correction is 1/2 (the value C5 establishes for this configuration). -/
def compPairHalf : List ScatteringComponent :=
  [⟨0, 0, 0, 1, 1/2, some ⟨1, 1, 0⟩⟩, ⟨0, 0, 0, 1, 1/2, some ⟨1, 1, 0⟩⟩]

/-- Counterexample to claim C7 as stated: with `R0 = 2` configured for the
pair and two coincident components of occupancy 1 and dynamical correction
1/2, the code accumulates `exp(200/37)/2` per component — the nominal
occupancy alone (as the claim words it) would give `exp(200/37)`. -/
theorem bondValenceSum_nominal_counterexample :
    calcBondValenceSum [((1, 1), 2)] compPairHalf
      (calcDistTableFast cellUnit sgIdentity 5 compPairHalf) =
      [(0, Real.exp (200/37) / 2), (1, Real.exp (200/37) / 2)] ∧
    bondValenceSumClaimed [((1, 1), 2)] compPairHalf
      (calcDistTableFast cellUnit sgIdentity 5 compPairHalf) =
      [(0, Real.exp (200/37)), (1, Real.exp (200/37))] ∧
    Real.exp (200/37) / 2 ≠ Real.exp (200/37) := by
  have htable : calcDistTableFast cellUnit sgIdentity 5 compPairHalf =
      [⟨0, 0, [⟨1, 0, 0⟩]⟩, ⟨1, 0, [⟨0, 0, 0⟩]⟩] :=
    calcDistTableFast_coincident_pair cellUnit 0 0 0 1 1 (1/2) (1/2) 5
      ⟨1, 1, 0⟩ ⟨1, 1, 0⟩
  refine ⟨?_, ?_, ?_⟩
  · rw [htable]
    simp [calcBondValenceSum, bondValenceStep, bondValenceTermSpec, compPairHalf,
      List.enum, List.enumFrom, pairKey, List.lookup, handleOf]
    norm_num
    ring
  · rw [htable]
    simp [bondValenceSumClaimed, bondValenceTermSpec, compPairHalf,
      List.enum, List.enumFrom, pairKey, List.lookup, handleOf]
    norm_num
  · intro hc
    have hpos := Real.exp_pos ((200 : ℝ)/37)
    nlinarith

/-!  The canonical-representative selection of `CalcDistTable` (claim C1). -/

/-- The index of the last element of `l` satisfying `p` (the asymmetric-unit
selection loop overwrites its choice on every hit, so the last hit wins). -/
def lastSatIdxAux {P : Type} (p : P → Bool) : List P → Option ℕ
  | [] => none
  | a :: l =>
    match lastSatIdxAux p l with
    | some k => some (k + 1)
    | none => if p a then some 0 else none

/-- The selection predicate of the position-collection loop: with restriction
enabled a position must be retained and pass the strict test to (re)set the
canonical representative; without restriction every position does. -/
def selPred {P : Type} (useAsym : Bool) (retain inside : P → Bool) (q : P) : Bool :=
  if useAsym then retain q && inside q else true

theorem collect_foldl_usym {P : Type} (useAsym : Bool) (retain inside : P → Bool)
    (start : ℕ) :
    ∀ (qs : List P) (n : ℕ) (acc : List (ℕ × P) × ℕ × ℕ),
      ((List.enumFrom n qs).foldl
        (fun acc jp =>
          if useAsym then
            if retain jp.2 then
              (acc.1 ++ [jp],
               if inside jp.2 then (start + acc.1.length, jp.1) else acc.2)
            else acc
          else (acc.1 ++ [jp], start + acc.1.length, jp.1)) acc).2.2 =
      ((lastSatIdxAux (selPred useAsym retain inside) qs).map
        (fun k => n + k)).getD acc.2.2 := by
  intro qs
  induction qs with
  | nil => intro n acc; rfl
  | cons q l ih =>
    intro n acc
    rw [show List.enumFrom n (q :: l) = (n, q) :: List.enumFrom (n + 1) l by
      simp [List.enumFrom]]
    rw [List.foldl_cons]
    rw [ih (n + 1) _]
    simp only [lastSatIdxAux]
    cases hl : lastSatIdxAux (selPred useAsym retain inside) l with
    | some k =>
      simp only [Option.map_some', Option.getD_some]
      omega
    | none =>
      by_cases hu : useAsym <;> by_cases hr : retain q <;>
        by_cases hin : inside q <;>
        simp [selPred, hu, hr, hin]

theorem collectComponent_usym {P : Type} (useAsym : Bool)
    (retain inside : P → Bool) (start : ℕ) (qs : List P) :
    (collectComponent useAsym retain inside start qs).2.2 =
      (lastSatIdxAux (selPred useAsym retain inside) qs).getD 0 := by
  unfold collectComponent
  rw [show qs.enum = List.enumFrom 0 qs from rfl]
  rw [collect_foldl_usym useAsym retain inside start qs 0 ([], 0, 0)]
  cases lastSatIdxAux (selPred useAsym retain inside) qs with
  | some k => simp
  | none => rfl

theorem buildPositions_usym {P : Type} (useAsym : Bool)
    (retain inside : P → Bool) (posOf : Vec3Q → P) (sg : SpaceGroupM)
    (comps : List ScatteringComponent) :
    (buildPositions useAsym retain inside posOf sg comps).2.map Prod.snd =
      comps.map (fun c =>
        (lastSatIdxAux (selPred useAsym retain inside)
          ((sg.allSymmetrics c.mX c.mY c.mZ).map posOf)).getD 0) := by
  unfold buildPositions
  have hgen : ∀ (cs : List ScatteringComponent)
      (acc : List (ℕ × ℕ × P) × List (ℕ × ℕ)),
      ((cs.foldl
        (fun acc comp =>
          let qs := (sg.allSymmetrics comp.mX comp.mY comp.mZ).map posOf
          let r := collectComponent useAsym retain inside acc.1.length qs
          (acc.1 ++ r.1.map (fun jp => (acc.2.length, jp.1, jp.2)),
           acc.2 ++ [r.2])) acc).2).map Prod.snd =
      acc.2.map Prod.snd ++ cs.map (fun c =>
        (lastSatIdxAux (selPred useAsym retain inside)
          ((sg.allSymmetrics c.mX c.mY c.mZ).map posOf)).getD 0) := by
    intro cs
    induction cs with
    | nil => intro acc; simp
    | cons c t ih =>
      intro acc
      rw [List.foldl_cons, ih]
      have hc := collectComponent_usym useAsym retain inside acc.1.length
        ((sg.allSymmetrics c.mX c.mY c.mZ).map posOf)
      simp [hc]
  rw [hgen comps ([], [])]
  simp

theorem buildPositions_snd_length {P : Type} (useAsym : Bool)
    (retain inside : P → Bool) (posOf : Vec3Q → P) (sg : SpaceGroupM)
    (comps : List ScatteringComponent) :
    (buildPositions useAsym retain inside posOf sg comps).2.length =
      comps.length := by
  have h := buildPositions_usym useAsym retain inside posOf sg comps
  have h1 : ((buildPositions useAsym retain inside posOf sg comps).2.map
      Prod.snd).length = comps.length := by
    rw [h, List.length_map]
  rw [List.length_map] at h1
  exact h1

/-- Claim C1 (amended): in `CalcDistTable` (fast path), the asymmetric-unit
restriction is enabled exactly when `xMax0*yMax0*zMax0 < 0.6`; when
restriction is enabled, `mUniquePosSymmetryIndex` is the index of the *last*
symmetry-equivalent position that is retained (margin test) and whose reduced
coordinates satisfy the *non-strict* bound test `≤ xMax0l` per axis (default
0 when none does); when restriction is disabled it is the index of the last
equivalent generated (the selection is overwritten at every iteration,
lines 1302-1313). -/
theorem calcDistTableFast_uniquePos (cell : UnitCellM) (sg : SpaceGroupM)
    (margin : ℚ) (comps : List ScatteringComponent) (i : ℕ)
    (hi : i < comps.length) :
    (useAsymUnitFlag sg = true ↔ sg.xAsymMax * sg.yAsymMax * sg.zAsymMax < 3/5) ∧
    ((calcDistTableFast cell sg margin comps).getD i default).mUniquePosSymmetryIndex =
      (lastSatIdxAux
        (selPred (useAsymUnitFlag sg) (retainZ (limitsZof cell sg margin))
          (insideZ (limitsZof cell sg margin)))
        ((sg.allSymmetrics (comps.getD i default).mX (comps.getD i default).mY
          (comps.getD i default).mZ).map posQuantize)).getD 0 := by
  constructor
  · simp [useAsymUnitFlag]
  · set u := useAsymUnitFlag sg
    set L := limitsZof cell sg margin
    set bp := buildPositions u (retainZ L) (insideZ L) posQuantize sg comps with hbp
    have hlen2 : bp.2.length = comps.length :=
      buildPositions_snd_length u (retainZ L) (insideZ L) posQuantize sg comps
    have hlen : (calcDistTableFast cell sg margin comps).length = comps.length := by
      unfold calcDistTableFast
      rw [List.length_map, List.enum_length]
      exact hlen2
    have hi2 : i < (calcDistTableFast cell sg margin comps).length := by omega
    rw [List.getD_eq_getElem _ _ hi2]
    have hmap := buildPositions_usym u (retainZ L) (insideZ L) posQuantize sg comps
    have hle : i < bp.2.enum.length := by
      rw [List.enum_length]
      omega
    have hib : i < bp.2.length := by omega
    have hlm : i < (bp.2.map Prod.snd).length := by
      rw [List.length_map]
      omega
    have hieq : (calcDistTableFast cell sg margin comps)[i] =
        ⟨(bp.2.enum[i]).1, (bp.2.enum[i]).2.2,
         neighbourList (fastDist2 cell) bp.1 (bp.2.enum[i]).2.1⟩ := by
      simp only [calcDistTableFast]
      rw [List.getElem_map]
    rw [hieq]
    simp only
    rw [List.getElem_enum]
    have hsnd : (bp.2[i]).2 = ((bp.2.map Prod.snd)[i]) := by
      rw [List.getElem_map]
    rw [hsnd]
    simp only [hbp, hmap, List.getElem_map]
    rw [List.getD_eq_getElem _ _ hi]

/-- The selection rule exactly as claim C1 words it (for comparison with the
code): when restriction is enabled, the index of the *first*
symmetry-equivalent position whose reduced coordinates fall *strictly*
inside the true asymmetric-unit bounds; when restriction is disabled, the
first equivalent generated (index 0). -/
def claimedUniquePosIndex (cell : UnitCellM) (sg : SpaceGroupM) (margin : ℚ)
    (comp : ScatteringComponent) : ℕ :=
  let L := limitsZof cell sg margin
  let qs := (sg.allSymmetrics comp.mX comp.mY comp.mZ).map posQuantize
  if useAsymUnitFlag sg then
    qs.findIdx (fun p =>
      decide (p.x < L.xMax0l) &&
        (decide (p.y < L.yMax0l) && decide (p.z < L.zMax0l)))
  else 0

/-- The fast-path limits at the restricted concrete crystal. -/
theorem limitsZof_cellTen_sgHalfCell :
    limitsZof cellTen sgHalfCell 3 =
      ⟨8192, 16384, 16384, 13107, 21299, 21299, 11468, 11468, 11468⟩ := by
  unfold limitsZof
  simp only [cellTen, sgHalfCell]
  congr 1 <;>
    exact cLong_eval_nonneg (by norm_num) (by norm_num) (by norm_num)

theorem quantize_one_tenth : quantize ((10 : ℚ)⁻¹) = 1638 := by
  rw [quantize_eval_nonneg (by norm_num : (0:ℚ) ≤ (10:ℚ)⁻¹ * 16384)
    (by norm_num : ((1638 : ℤ) : ℚ) ≤ (10:ℚ)⁻¹ * 16384)
    (by norm_num : ((10:ℚ)⁻¹) * 16384 < ((1638 : ℤ) : ℚ) + 1)]
  decide

theorem quantize_one_fifth : quantize ((10 : ℚ)⁻¹ + (10 : ℚ)⁻¹) = 3276 := by
  rw [quantize_eval_nonneg (by norm_num : (0:ℚ) ≤ ((10:ℚ)⁻¹ + (10:ℚ)⁻¹) * 16384)
    (by norm_num : ((3276 : ℤ) : ℚ) ≤ ((10:ℚ)⁻¹ + (10:ℚ)⁻¹) * 16384)
    (by norm_num : ((10:ℚ)⁻¹ + (10:ℚ)⁻¹) * 16384 < ((3276 : ℤ) : ℚ) + 1)]
  decide

/-- Concrete evaluation of the restricted branch: both symmetry images of the
atom at `(1/10,1/10,1/10)` are retained and both pass the non-strict bound
test, so the recorded unique-position symmetry index is the *last* one, 1. -/
theorem calcDistTableFast_halfCell_usym :
    ((calcDistTableFast cellTen sgHalfCell 3 compTenth).getD 0
      default).mUniquePosSymmetryIndex = 1 := by
  have hsym : sgHalfCell.allSymmetrics =
      fun x y z => [⟨x, y, z⟩, ⟨x + 1/10, y, z⟩] := rfl
  have hbp : buildPositions true (retainZ (limitsZof cellTen sgHalfCell 3))
      (insideZ (limitsZof cellTen sgHalfCell 3)) posQuantize sgHalfCell
      [⟨1/10, 1/10, 1/10, 1, 1, some ⟨1, 1, 0⟩⟩] =
      ([(0, 0, ⟨1638, 1638, 1638⟩), (0, 1, ⟨3276, 1638, 1638⟩)], [(1, 1)]) := by
    simp [buildPositions, collectComponent, hsym, posQuantize,
      limitsZof_cellTen_sgHalfCell, quantize_one_tenth, quantize_one_fifth,
      retainZ, insideZ, List.enum, List.enumFrom]
  simp only [calcDistTableFast, useAsymUnitFlag_sgHalfCell, compTenth]
  rw [hbp]
  simp [List.enum, List.enumFrom]

/-- Counterexample to claim C1 as stated: at the restricted crystal (cubic
cell of edge 10, asymmetric-unit bounds `(1/2,1,1)`, one atom at
`(1/10,1/10,1/10)` with a second equivalent at `(1/5,1/10,1/10)`), both
equivalents fall strictly inside the true asymmetric-unit bounds, so the
claimed rule (record the *first* such equivalent) yields index 0; the code
overwrites the selection at every passing equivalent (line 1313), so it
records index 1. -/
theorem uniquePos_first_strict_counterexample :
    claimedUniquePosIndex cellTen sgHalfCell 3 (compTenth.getD 0 default) = 0 ∧
    ((calcDistTableFast cellTen sgHalfCell 3 compTenth).getD 0
      default).mUniquePosSymmetryIndex = 1 := by
  constructor
  · have hsym : sgHalfCell.allSymmetrics =
        fun x y z => [⟨x, y, z⟩, ⟨x + 1/10, y, z⟩] := rfl
    simp [claimedUniquePosIndex, useAsymUnitFlag_sgHalfCell, hsym, compTenth,
      limitsZof_cellTen_sgHalfCell, posQuantize, quantize_one_tenth,
      quantize_one_fifth, List.findIdx, List.findIdx.go]
  · exact calcDistTableFast_halfCell_usym

/-- Witness for the amended claim C1, at the concrete restricted crystal. -/
theorem calcDistTableFast_uniquePos_witness :
    (0 < compTenth.length) ∧
    ((useAsymUnitFlag sgHalfCell = true ↔
        sgHalfCell.xAsymMax * sgHalfCell.yAsymMax * sgHalfCell.zAsymMax < 3/5) ∧
    ((calcDistTableFast cellTen sgHalfCell 3 compTenth).getD 0 default).mUniquePosSymmetryIndex =
      (lastSatIdxAux
        (selPred (useAsymUnitFlag sgHalfCell)
          (retainZ (limitsZof cellTen sgHalfCell 3))
          (insideZ (limitsZof cellTen sgHalfCell 3)))
        ((sgHalfCell.allSymmetrics (compTenth.getD 0 default).mX
          (compTenth.getD 0 default).mY
          (compTenth.getD 0 default).mZ).map posQuantize)).getD 0) :=
  ⟨by simp [compTenth],
   calcDistTableFast_uniquePos cellTen sgHalfCell 3 compTenth 0
     (by simp [compTenth])⟩


/-!  Claim C2: equivalence of the quantized fast path and the exact path. -/

/-- Truncation toward zero differs from the argument by less than 1. -/
theorem cLong_err (q : ℚ) : |(cLong q : ℚ) - q| < 1 := by
  unfold cLong
  rw [abs_sub_lt_iff]
  split
  · constructor
    · have h := Int.ceil_lt_add_one q
      linarith
    · have h := Int.le_ceil q
      linarith
  · constructor
    · have h := Int.floor_le q
      linarith
    · have h := Int.sub_one_lt_floor q
      linarith

/-- Distance of a scaled coordinate to the nearest multiple of the fixed-point
period `16384` (the quantity the sign-folded masked difference approximates). -/
def nearestMultDist (t : ℚ) : ℚ := |t - 16384 * round (t / 16384)|

theorem nearestMultDist_le (t : ℚ) (k : ℤ) :
    nearestMultDist t ≤ |t - 16384 * k| := by
  unfold nearestMultDist
  have h1 : t - 16384 * round (t / 16384) =
      16384 * (t / 16384 - (round (t / 16384) : ℚ)) := by ring
  have h2 : t - 16384 * k = 16384 * (t / 16384 - (k : ℚ)) := by ring
  rw [h1, h2, abs_mul, abs_mul]
  have h3 : |t / 16384 - (round (t / 16384) : ℚ)| ≤ |t / 16384 - (k : ℚ)| := by
    by_cases hk : k = round (t / 16384)
    · rw [hk]
    · have ha : |t / 16384 - (round (t / 16384) : ℚ)| ≤ 1 / 2 :=
        abs_sub_round (t / 16384)
      have hb : (1 : ℚ) ≤ |((round (t / 16384) - k : ℤ) : ℚ)| := by
        have : (1 : ℤ) ≤ |round (t / 16384) - k| := Int.one_le_abs (by omega)
        calc (1 : ℚ) = ((1 : ℤ) : ℚ) := by norm_num
        _ ≤ ((|round (t / 16384) - k| : ℤ) : ℚ) := by exact_mod_cast this
        _ = |((round (t / 16384) - k : ℤ) : ℚ)| := by
            rw [Int.cast_abs]
      have hc : |((round (t / 16384) - k : ℤ) : ℚ)| ≤
          |(round (t / 16384) : ℚ) - t / 16384| + |t / 16384 - (k : ℚ)| := by
        push_cast
        exact abs_sub_le _ _ _
      rw [abs_sub_comm] at hc
      linarith
  have : (0 : ℚ) ≤ |(16384 : ℚ)| := abs_nonneg _
  exact mul_le_mul_of_nonneg_left h3 this

theorem nearestMultDist_lip (a b : ℚ) :
    |nearestMultDist a - nearestMultDist b| ≤ |a - b| := by
  rw [abs_sub_le_iff]
  constructor
  · have h1 : nearestMultDist a ≤ |a - 16384 * round (b / 16384)| :=
      nearestMultDist_le a (round (b / 16384))
    have h2 : |a - 16384 * round (b / 16384)| ≤
        |a - b| + |b - 16384 * round (b / 16384)| := abs_sub_le _ _ _
    have h3 : |b - 16384 * round (b / 16384)| = nearestMultDist b := rfl
    linarith
  · have h1 : nearestMultDist b ≤ |b - 16384 * round (a / 16384)| :=
      nearestMultDist_le b (round (a / 16384))
    have h2 : |b - 16384 * round (a / 16384)| ≤
        |b - a| + |a - 16384 * round (a / 16384)| := abs_sub_le _ _ _
    have h3 : |a - 16384 * round (a / 16384)| = nearestMultDist a := rfl
    have h4 : |b - a| = |a - b| := abs_sub_comm b a
    linarith

theorem nearestMultDist_shift (t : ℚ) (k : ℤ) :
    nearestMultDist (t + 16384 * k) = nearestMultDist t := by
  unfold nearestMultDist
  have h1 : (t + 16384 * k) / 16384 = t / 16384 + (k : ℚ) := by
    push_cast
    ring
  rw [h1, round_add_int]
  have h2 : t + 16384 * (k : ℚ) - 16384 * ((round (t / 16384) + k : ℤ) : ℚ) =
      t - 16384 * round (t / 16384) := by
    push_cast
    ring
  rw [h2]

theorem nearestMultDist_lo {t : ℚ} (h0 : 0 ≤ t) (h1 : t < 8192) :
    nearestMultDist t = t := by
  unfold nearestMultDist
  have hr : round (t / 16384) = 0 := by
    rw [round_eq]
    rw [Int.floor_eq_iff]
    constructor
    · push_cast
      nlinarith
    · push_cast
      nlinarith
  rw [hr]
  simp only [Int.cast_zero, mul_zero, sub_zero]
  exact abs_of_nonneg h0

theorem nearestMultDist_hi {t : ℚ} (h0 : 8192 ≤ t) (h1 : t < 16384) :
    nearestMultDist t = 16384 - t := by
  unfold nearestMultDist
  have hr : round (t / 16384) = 1 := by
    rw [round_eq]
    rw [Int.floor_eq_iff]
    constructor
    · push_cast
      nlinarith
    · push_cast
      nlinarith
  rw [hr]
  rw [abs_of_nonpos (by push_cast; nlinarith)]
  push_cast
  ring

/-- The `modf`-based shift of the exact path computes `Int.fract`. -/
theorem reduceFrac_eq_fract (d : ℚ) :
    (if d - (cLong d : ℚ) < 0 then d - (cLong d : ℚ) + 1
     else d - (cLong d : ℚ)) = Int.fract d := by
  have hfr : Int.fract d = d - (⌊d⌋ : ℚ) := rfl
  by_cases hf : Int.fract d = 0
  · have hd : d = ((⌊d⌋ : ℤ) : ℚ) := by
      rw [hfr] at hf
      linarith
    rw [hd]
    unfold cLong
    split
    · rw [Int.ceil_intCast]
      simp
    · rw [Int.floor_intCast]
      simp
  · have hflt : (⌊d⌋ : ℚ) < d := by
      have h1 := Int.floor_le d
      rcases lt_or_eq_of_le h1 with h | h
      · exact h
      · exfalso
        apply hf
        rw [hfr]
        linarith
    unfold cLong
    by_cases hd : d < 0
    · rw [if_pos hd]
      have hceil : ⌈d⌉ = ⌊d⌋ + 1 := by
        rw [Int.ceil_eq_iff]
        constructor
        · push_cast
          linarith
        · push_cast
          have := Int.lt_floor_add_one d
          linarith
      rw [hceil]
      rw [if_pos (by push_cast; have := Int.lt_floor_add_one d; linarith)]
      rw [hfr]
      push_cast
      ring
    · rw [if_neg hd]
      rw [if_neg (by push_cast; linarith)]
      rw [hfr]

/-- The exact path's minimum image in terms of `Int.fract`. -/
theorem minImage_fract (d : ℚ) :
    minImage d = if 1/2 < Int.fract d then 1 - Int.fract d else Int.fract d := by
  simp only [minImage]
  rw [reduceFrac_eq_fract d]

theorem minImage_range (d : ℚ) : 0 ≤ minImage d ∧ minImage d ≤ 1/2 := by
  rw [minImage_fract]
  have h0 := Int.fract_nonneg d
  have h1 := Int.fract_lt_one d
  split
  · constructor <;> linarith
  · constructor <;> linarith

/-- The scaled minimum image is exactly the distance to the nearest multiple
of the period. -/
theorem minImage_nearest (d : ℚ) :
    16384 * minImage d = nearestMultDist (16384 * d) := by
  have hsplit : (16384 : ℚ) * d = 16384 * Int.fract d + 16384 * (⌊d⌋ : ℤ) := by
    have : Int.fract d = d - (⌊d⌋ : ℚ) := rfl
    rw [this]
    push_cast
    ring
  rw [hsplit, nearestMultDist_shift]
  have h0 := Int.fract_nonneg d
  have h1 := Int.fract_lt_one d
  rw [minImage_fract]
  by_cases hgt : 1/2 < Int.fract d
  · rw [if_pos hgt]
    rw [nearestMultDist_hi (by linarith) (by linarith)]
    ring
  · rw [if_neg hgt]
    push_neg at hgt
    rcases lt_or_eq_of_le hgt with h | h
    · rw [nearestMultDist_lo (by linarith) (by linarith)]
    · rw [h]
      norm_num
      rw [nearestMultDist_hi (by norm_num) (by norm_num)]
      norm_num

/-- The masked difference of two quantized coordinates equals the masked
difference of the unmasked truncations. -/
theorem maskFrac_quantize_sub (r r' : ℚ) :
    maskFrac (quantize r' - quantize r) =
      maskFrac (cLong (r' * 16384) - cLong (r * 16384)) := by
  unfold quantize maskFrac
  omega

theorem signFold_maskFrac_range (A : ℤ) :
    0 ≤ signFold (maskFrac A) ∧ signFold (maskFrac A) < 8192 := by
  unfold signFold maskFrac
  split <;> omega

/-- The sign-folded masked value differs from the distance to the nearest
multiple of the period by at most 1 (the `~x` bit trick is off by one on the
upper half). -/
theorem signFold_nearest (A : ℤ) :
    |(signFold (maskFrac A) : ℚ) - nearestMultDist (A : ℚ)| ≤ 1 := by
  have hm0 : 0 ≤ A % 16384 := Int.emod_nonneg A (by norm_num)
  have hm1 : A % 16384 < 16384 := Int.emod_lt_of_pos A (by norm_num)
  have hsplit : (A : ℚ) = ((A % 16384 : ℤ) : ℚ) + 16384 * ((A / 16384 : ℤ) : ℚ) := by
    have : A = A % 16384 + 16384 * (A / 16384) := by omega
    exact_mod_cast this
  rw [hsplit, nearestMultDist_shift]
  unfold signFold maskFrac
  by_cases h : 8192 ≤ A % 16384
  · rw [if_pos h]
    rw [nearestMultDist_hi (by exact_mod_cast h) (by exact_mod_cast hm1)]
    have he : (-(A % 16384) - 1) % 8192 = 16383 - A % 16384 := by omega
    rw [he]
    have : ((16383 - A % 16384 : ℤ) : ℚ) - (16384 - ((A % 16384 : ℤ) : ℚ)) = -1 := by
      push_cast
      ring
    rw [this]
    norm_num
  · rw [if_neg h]
    push_neg at h
    rw [nearestMultDist_lo (by exact_mod_cast hm0) (by exact_mod_cast h)]
    simp

/-- Per-axis equivalence of the fast and exact reductions: the sign-folded
masked difference of the quantized coordinates is within 3 fixed-point units
of the scaled exact minimum image. -/
theorem axisEquiv (r r' : ℚ) :
    |(signFold (maskFrac (quantize r' - quantize r)) : ℚ)
      - 16384 * minImage (r' - r)| < 3 := by
  rw [maskFrac_quantize_sub]
  rw [minImage_nearest]
  have hA := signFold_nearest (cLong (r' * 16384) - cLong (r * 16384))
  have herr : |((cLong (r' * 16384) - cLong (r * 16384) : ℤ) : ℚ)
      - 16384 * (r' - r)| < 2 := by
    have h1 := cLong_err (r' * 16384)
    have h2 := cLong_err (r * 16384)
    have hs : ((cLong (r' * 16384) - cLong (r * 16384) : ℤ) : ℚ)
        - 16384 * (r' - r) =
        ((cLong (r' * 16384) : ℚ) - r' * 16384)
          - ((cLong (r * 16384) : ℚ) - r * 16384) := by
      push_cast
      ring
    rw [hs]
    calc |((cLong (r' * 16384) : ℚ) - r' * 16384)
        - ((cLong (r * 16384) : ℚ) - r * 16384)|
        ≤ |(cLong (r' * 16384) : ℚ) - r' * 16384|
          + |(cLong (r * 16384) : ℚ) - r * 16384| := abs_sub _ _
      _ < 2 := by linarith
  have hlip := nearestMultDist_lip
    ((cLong (r' * 16384) - cLong (r * 16384) : ℤ) : ℚ) (16384 * (r' - r))
  calc |(signFold (maskFrac (cLong (r' * 16384) - cLong (r * 16384))) : ℚ)
      - nearestMultDist (16384 * (r' - r))|
      ≤ |(signFold (maskFrac (cLong (r' * 16384) - cLong (r * 16384))) : ℚ)
          - nearestMultDist ((cLong (r' * 16384) - cLong (r * 16384) : ℤ) : ℚ)|
        + |nearestMultDist ((cLong (r' * 16384) - cLong (r * 16384) : ℤ) : ℚ)
          - nearestMultDist (16384 * (r' - r))| := abs_sub_le _ _ _
    _ < 3 := by linarith

/-- Difference of the squares of two 3-term linear combinations with entries
bounded by `B`, coefficients within `ε`, and both coordinate sets in
`[-1/2, 1/2]`. -/
theorem lincomb_sq_diff (c1 c2 c3 a1 a2 a3 d1 d2 d3 B ε : ℚ)
    (hc1 : |c1| ≤ B) (hc2 : |c2| ≤ B) (hc3 : |c3| ≤ B)
    (ha1 : |a1 - d1| ≤ ε) (ha2 : |a2 - d2| ≤ ε) (ha3 : |a3 - d3| ≤ ε)
    (hb1 : |a1| ≤ 1/2) (hb2 : |a2| ≤ 1/2) (hb3 : |a3| ≤ 1/2)
    (hd1 : |d1| ≤ 1/2) (hd2 : |d2| ≤ 1/2) (hd3 : |d3| ≤ 1/2) :
    |(c1*a1 + c2*a2 + c3*a3)^2 - (c1*d1 + c2*d2 + c3*d3)^2| ≤ 9 * B^2 * ε := by
  have hB : 0 ≤ B := le_trans (abs_nonneg _) hc1
  have hε : 0 ≤ ε := le_trans (abs_nonneg _) ha1
  have hdiff : |(c1*a1 + c2*a2 + c3*a3) - (c1*d1 + c2*d2 + c3*d3)| ≤ 3 * B * ε := by
    have h1 : |c1 * (a1 - d1)| ≤ B * ε := by
      rw [abs_mul]
      exact mul_le_mul hc1 ha1 (abs_nonneg _) hB
    have h2 : |c2 * (a2 - d2)| ≤ B * ε := by
      rw [abs_mul]
      exact mul_le_mul hc2 ha2 (abs_nonneg _) hB
    have h3 : |c3 * (a3 - d3)| ≤ B * ε := by
      rw [abs_mul]
      exact mul_le_mul hc3 ha3 (abs_nonneg _) hB
    have hsum : (c1*a1 + c2*a2 + c3*a3) - (c1*d1 + c2*d2 + c3*d3) =
        c1 * (a1 - d1) + (c2 * (a2 - d2) + c3 * (a3 - d3)) := by ring
    rw [hsum]
    calc |c1 * (a1 - d1) + (c2 * (a2 - d2) + c3 * (a3 - d3))|
        ≤ |c1 * (a1 - d1)| + (|c2 * (a2 - d2)| + |c3 * (a3 - d3)|) := by
          apply le_trans (abs_add _ _)
          have := abs_add (c2 * (a2 - d2)) (c3 * (a3 - d3))
          linarith
      _ ≤ 3 * B * ε := by linarith
  have hsuma : |c1*a1 + c2*a2 + c3*a3| ≤ 3 * B * (1/2) := by
    have h1 : |c1 * a1| ≤ B * (1/2) := by
      rw [abs_mul]
      exact mul_le_mul hc1 hb1 (abs_nonneg _) hB
    have h2 : |c2 * a2| ≤ B * (1/2) := by
      rw [abs_mul]
      exact mul_le_mul hc2 hb2 (abs_nonneg _) hB
    have h3 : |c3 * a3| ≤ B * (1/2) := by
      rw [abs_mul]
      exact mul_le_mul hc3 hb3 (abs_nonneg _) hB
    have hre : c1*a1 + c2*a2 + c3*a3 = c1*a1 + (c2*a2 + c3*a3) := by ring
    rw [hre]
    have ht := abs_add (c1*a1) (c2*a2 + c3*a3)
    have ht2 := abs_add (c2*a2) (c3*a3)
    linarith
  have hsumd : |c1*d1 + c2*d2 + c3*d3| ≤ 3 * B * (1/2) := by
    have h1 : |c1 * d1| ≤ B * (1/2) := by
      rw [abs_mul]
      exact mul_le_mul hc1 hd1 (abs_nonneg _) hB
    have h2 : |c2 * d2| ≤ B * (1/2) := by
      rw [abs_mul]
      exact mul_le_mul hc2 hd2 (abs_nonneg _) hB
    have h3 : |c3 * d3| ≤ B * (1/2) := by
      rw [abs_mul]
      exact mul_le_mul hc3 hd3 (abs_nonneg _) hB
    have hre : c1*d1 + c2*d2 + c3*d3 = c1*d1 + (c2*d2 + c3*d3) := by ring
    rw [hre]
    have ht := abs_add (c1*d1) (c2*d2 + c3*d3)
    have ht2 := abs_add (c2*d2) (c3*d3)
    linarith
  have hfac : (c1*a1 + c2*a2 + c3*a3)^2 - (c1*d1 + c2*d2 + c3*d3)^2 =
      ((c1*a1 + c2*a2 + c3*a3) - (c1*d1 + c2*d2 + c3*d3)) *
      ((c1*a1 + c2*a2 + c3*a3) + (c1*d1 + c2*d2 + c3*d3)) := by ring
  rw [hfac, abs_mul]
  have hplus : |(c1*a1 + c2*a2 + c3*a3) + (c1*d1 + c2*d2 + c3*d3)| ≤ 3 * B := by
    calc |(c1*a1 + c2*a2 + c3*a3) + (c1*d1 + c2*d2 + c3*d3)|
        ≤ |c1*a1 + c2*a2 + c3*a3| + |c1*d1 + c2*d2 + c3*d3| := abs_add _ _
      _ ≤ 3 * B := by linarith
  calc |(c1*a1 + c2*a2 + c3*a3) - (c1*d1 + c2*d2 + c3*d3)| *
        |(c1*a1 + c2*a2 + c3*a3) + (c1*d1 + c2*d2 + c3*d3)|
      ≤ (3 * B * ε) * (3 * B) := by
        apply mul_le_mul hdiff hplus (abs_nonneg _)
        positivity
    _ = 9 * B^2 * ε := by ring



/-- Difference of the two paths' squared distances, for an upper-triangular
orthogonalization matrix with entries bounded by `B`. -/
theorem dist2_sq_sum_diff (c00 c01 c02 c11 c12 c22 a1 a2 a3 e1 e2 e3 B ε : ℚ)
    (h00 : |c00| ≤ B) (h01 : |c01| ≤ B) (h02 : |c02| ≤ B)
    (h11 : |c11| ≤ B) (h12 : |c12| ≤ B) (h22 : |c22| ≤ B)
    (ha1 : |a1 - e1| ≤ ε) (ha2 : |a2 - e2| ≤ ε) (ha3 : |a3 - e3| ≤ ε)
    (hb1 : |a1| ≤ 1/2) (hb2 : |a2| ≤ 1/2) (hb3 : |a3| ≤ 1/2)
    (he1 : |e1| ≤ 1/2) (he2 : |e2| ≤ 1/2) (he3 : |e3| ≤ 1/2) :
    |(c00*a1 + c01*a2 + c02*a3)^2 + (c11*a2 + c12*a3)^2 + (c22*a3)^2
      - ((c00*e1 + c01*e2 + c02*e3)^2 + (c11*e2 + c12*e3)^2 + (c22*e3)^2)|
      ≤ 27 * B^2 * ε := by
  have m1 := lincomb_sq_diff c00 c01 c02 a1 a2 a3 e1 e2 e3 B ε
    h00 h01 h02 ha1 ha2 ha3 hb1 hb2 hb3 he1 he2 he3
  have hz : |(0:ℚ)| ≤ B := by
    rw [abs_zero]
    exact le_trans (abs_nonneg _) h00
  have hz2 : |(0:ℚ) - 0| ≤ ε := by
    rw [sub_zero, abs_zero]
    exact le_trans (abs_nonneg _) ha1
  have hz3 : |(0:ℚ)| ≤ 1/2 := by
    rw [abs_zero]
    norm_num
  have m2 := lincomb_sq_diff c11 c12 0 a2 a3 0 e2 e3 0 B ε
    h11 h12 hz ha2 ha3 hz2 hb2 hb3 hz3 he2 he3 hz3
  have m3 := lincomb_sq_diff c22 0 0 a3 0 0 e3 0 0 B ε
    h22 hz hz ha3 hz2 hz2 hb3 hz3 hz3 he3 hz3 hz3
  simp only [mul_zero, zero_mul, add_zero] at m2 m3
  have t1 := abs_add ((c00*a1 + c01*a2 + c02*a3)^2 - (c00*e1 + c01*e2 + c02*e3)^2)
    (((c11*a2 + c12*a3)^2 - (c11*e2 + c12*e3)^2) + ((c22*a3)^2 - (c22*e3)^2))
  have t2 := abs_add ((c11*a2 + c12*a3)^2 - (c11*e2 + c12*e3)^2)
    ((c22*a3)^2 - (c22*e3)^2)
  have hre : (c00*a1 + c01*a2 + c02*a3)^2 + (c11*a2 + c12*a3)^2 + (c22*a3)^2
      - ((c00*e1 + c01*e2 + c02*e3)^2 + (c11*e2 + c12*e3)^2 + (c22*e3)^2)
      = ((c00*a1 + c01*a2 + c02*a3)^2 - (c00*e1 + c01*e2 + c02*e3)^2)
        + (((c11*a2 + c12*a3)^2 - (c11*e2 + c12*e3)^2)
           + ((c22*a3)^2 - (c22*e3)^2)) := by
    ring
  rw [hre]
  linarith

/-- Claim C2: the quantized fixed-point path and the exact path of
`CalcDistTable` agree up to quantization error.  Per axis, the bit-mask
reduction and sign-folding of the quantized coordinate difference is within 3
fixed-point units (3/2^14 of a cell edge) of the scaled exact minimum-image
reduction; consequently, for an orthogonalization matrix with entries bounded
by `B`, the squared distances of the two paths differ by at most
`81·B²/2^14`. -/
theorem calcDistTable_fast_exact_refinement (cell : UnitCellM) (B : ℚ)
    (hB : |cell.M00| ≤ B ∧ |cell.M01| ≤ B ∧ |cell.M02| ≤ B ∧
          |cell.M11| ≤ B ∧ |cell.M12| ≤ B ∧ |cell.M22| ≤ B)
    (p q : Vec3Q) :
    (∀ r r' : ℚ,
      |(signFold (maskFrac (quantize r' - quantize r)) : ℚ)
        - 16384 * minImage (r' - r)| < 3) ∧
    |fastDist2 cell (posQuantize p) (posQuantize q) - exactDist2 cell p q| ≤
      81 * B ^ 2 / 16384 := by
  obtain ⟨h00, h01, h02, h11, h12, h22⟩ := hB
  refine ⟨fun r r' => axisEquiv r r', ?_⟩
  have key : ∀ r r' : ℚ,
      |(signFold (maskFrac (quantize r' - quantize r)) : ℚ) / 16384
        - minImage (r' - r)| ≤ 3 / 16384 := by
    intro r r'
    have h := axisEquiv r r'
    have heq : (signFold (maskFrac (quantize r' - quantize r)) : ℚ) / 16384
        - minImage (r' - r)
        = ((signFold (maskFrac (quantize r' - quantize r)) : ℚ)
            - 16384 * minImage (r' - r)) / 16384 := by
      ring
    rw [heq, abs_div]
    rw [abs_of_pos (by norm_num : (0:ℚ) < 16384)]
    rw [div_le_div_iff (by norm_num) (by norm_num)]
    nlinarith [le_of_lt h]
  have habs : ∀ A : ℤ, |(signFold (maskFrac A) : ℚ) / 16384| ≤ 1/2 := by
    intro A
    obtain ⟨h0, h1⟩ := signFold_maskFrac_range A
    have h0' : (0:ℚ) ≤ (signFold (maskFrac A) : ℚ) := by exact_mod_cast h0
    have h1' : (signFold (maskFrac A) : ℚ) ≤ 8192 := by
      exact_mod_cast le_of_lt h1
    rw [abs_of_nonneg (div_nonneg h0' (by norm_num))]
    rw [div_le_iff (by norm_num)]
    linarith
  have hmi : ∀ d : ℚ, |minImage d| ≤ 1/2 := by
    intro d
    obtain ⟨hm0, hm1⟩ := minImage_range d
    rw [abs_of_nonneg hm0]
    exact hm1
  have hfast : fastDist2 cell (posQuantize p) (posQuantize q) =
      (cell.M00 * ((signFold (maskFrac (quantize q.x - quantize p.x)) : ℚ)/16384)
        + cell.M01 * ((signFold (maskFrac (quantize q.y - quantize p.y)) : ℚ)/16384)
        + cell.M02 * ((signFold (maskFrac (quantize q.z - quantize p.z)) : ℚ)/16384))^2
      + (cell.M11 * ((signFold (maskFrac (quantize q.y - quantize p.y)) : ℚ)/16384)
        + cell.M12 * ((signFold (maskFrac (quantize q.z - quantize p.z)) : ℚ)/16384))^2
      + (cell.M22 * ((signFold (maskFrac (quantize q.z - quantize p.z)) : ℚ)/16384))^2 := by
    simp only [fastDist2, posQuantize]
    ring
  have hexact : exactDist2 cell p q =
      (cell.M00 * minImage (q.x - p.x) + cell.M01 * minImage (q.y - p.y)
        + cell.M02 * minImage (q.z - p.z))^2
      + (cell.M11 * minImage (q.y - p.y) + cell.M12 * minImage (q.z - p.z))^2
      + (cell.M22 * minImage (q.z - p.z))^2 := by
    simp only [exactDist2]
    ring
  rw [hfast, hexact]
  have main := dist2_sq_sum_diff cell.M00 cell.M01 cell.M02 cell.M11 cell.M12
    cell.M22
    ((signFold (maskFrac (quantize q.x - quantize p.x)) : ℚ)/16384)
    ((signFold (maskFrac (quantize q.y - quantize p.y)) : ℚ)/16384)
    ((signFold (maskFrac (quantize q.z - quantize p.z)) : ℚ)/16384)
    (minImage (q.x - p.x)) (minImage (q.y - p.y)) (minImage (q.z - p.z))
    B (3/16384) h00 h01 h02 h11 h12 h22
    (key p.x q.x) (key p.y q.y) (key p.z q.z)
    (habs _) (habs _) (habs _) (hmi _) (hmi _) (hmi _)
  linarith

/-- Witness for claim C2, at the unit cell, entry bound 1 and the concrete
pair `(0,0,0)`, `(1/4,0,0)`. -/
theorem calcDistTable_fast_exact_refinement_witness :
    (|cellUnit.M00| ≤ 1 ∧ |cellUnit.M01| ≤ 1 ∧ |cellUnit.M02| ≤ 1 ∧
     |cellUnit.M11| ≤ 1 ∧ |cellUnit.M12| ≤ 1 ∧ |cellUnit.M22| ≤ 1) ∧
    ((∀ r r' : ℚ,
      |(signFold (maskFrac (quantize r' - quantize r)) : ℚ)
        - 16384 * minImage (r' - r)| < 3) ∧
    |fastDist2 cellUnit (posQuantize ⟨0, 0, 0⟩) (posQuantize ⟨1/4, 0, 0⟩)
      - exactDist2 cellUnit ⟨0, 0, 0⟩ ⟨1/4, 0, 0⟩| ≤ 81 * (1 : ℚ) ^ 2 / 16384) :=
  ⟨by norm_num [cellUnit],
   calcDistTable_fast_exact_refinement cellUnit 1 (by norm_num [cellUnit])
     ⟨0, 0, 0⟩ ⟨1/4, 0, 0⟩⟩



end ObjCryst

namespace ObjCryst.CacheModel

/-!  The cache-coherence facts behind claims C9 and C10. -/

/-- `GetScatteringComponentList` is a no-op on this state: its gate passes or
no per-scatterer clock is newer. -/
def ScattDone (s : St) : Prop :=
  s.clockScattCompList > s.masterClock ∨
    (∀ c ∈ s.scattClocks, c ≤ s.clockScattCompList)

/-- The distance-table gate passes: the cached table is newer than the
component list and the cell metric. -/
def DistDone (s : St) : Prop :=
  s.distTableClock > s.clockScattCompList ∧ s.distTableClock > s.metricClock

theorem calcDistTableCore_fields (F : Funcs) (s : St) :
    (calcDistTableCore F s).masterClock = s.masterClock ∧
    (calcDistTableCore F s).scattClocks = s.scattClocks ∧
    (calcDistTableCore F s).clockScattCompList = s.clockScattCompList ∧
    (calcDistTableCore F s).metricClock = s.metricClock ∧
    (calcDistTableCore F s).masterScatPowClock = s.masterScatPowClock ∧
    (calcDistTableCore F s).bumpParClock = s.bumpParClock ∧
    (calcDistTableCore F s).bondParClock = s.bondParClock ∧
    (calcDistTableCore F s).bumpCostClock = s.bumpCostClock ∧
    (calcDistTableCore F s).bondCalcClock = s.bondCalcClock ∧
    (calcDistTableCore F s).bondCostClock = s.bondCostClock ∧
    (calcDistTableCore F s).dynPopCorrClock = s.dynPopCorrClock ∧
    s.global ≤ (calcDistTableCore F s).global := by
  unfold calcDistTableCore
  split
  · exact ⟨rfl, rfl, rfl, rfl, rfl, rfl, rfl, rfl, rfl, rfl, rfl, le_refl _⟩
  · exact ⟨rfl, rfl, rfl, rfl, rfl, rfl, rfl, rfl, rfl, rfl, rfl,
      Nat.le_succ _⟩

theorem calcDynPopCorrCore_fields (F : Funcs) (s : St) :
    (calcDynPopCorrCore F s).masterClock = s.masterClock ∧
    (calcDynPopCorrCore F s).scattClocks = s.scattClocks ∧
    (calcDynPopCorrCore F s).clockScattCompList = s.clockScattCompList ∧
    (calcDynPopCorrCore F s).metricClock = s.metricClock ∧
    (calcDynPopCorrCore F s).masterScatPowClock = s.masterScatPowClock ∧
    (calcDynPopCorrCore F s).bumpParClock = s.bumpParClock ∧
    (calcDynPopCorrCore F s).bondParClock = s.bondParClock ∧
    (calcDynPopCorrCore F s).bumpCostClock = s.bumpCostClock ∧
    (calcDynPopCorrCore F s).bondCalcClock = s.bondCalcClock ∧
    (calcDynPopCorrCore F s).bondCostClock = s.bondCostClock ∧
    s.global ≤ (calcDynPopCorrCore F s).global := by
  obtain ⟨f1, f2, f3, f4, f5, f6, f7, f8, f9, f10, f11, f12⟩ :=
    calcDistTableCore_fields F s
  simp only [calcDynPopCorrCore]
  split
  · exact ⟨f1, f2, f3, f4, f5, f6, f7, f8, f9, f10, f12⟩
  · refine ⟨f1, f2, f3, f4, f5, f6, f7, f8, f9, f10, ?_⟩
    dsimp only
    omega

theorem wf_calcDistTableCore (F : Funcs) (s : St) (h : WF s) :
    WF (calcDistTableCore F s) := by
  obtain ⟨h1, h2, h3, h4, h5, h6, h7, h8, h9, h10, h11, h12⟩ := h
  unfold calcDistTableCore
  split
  · exact ⟨h1, h2, h3, h4, h5, h6, h7, h8, h9, h10, h11, h12⟩
  · exact ⟨by dsimp only; omega,
      fun c hc => by dsimp only at hc ⊢; have := h2 c hc; omega,
      by dsimp only; omega, by dsimp only; omega, by dsimp only; omega,
      by dsimp only; omega, by dsimp only; omega, by dsimp only; omega,
      by dsimp only; omega, by dsimp only; omega, by dsimp only; omega,
      by dsimp only; omega⟩

theorem wf_calcDynPopCorrCore (F : Funcs) (s : St) (h : WF s) :
    WF (calcDynPopCorrCore F s) := by
  have hwf1 := wf_calcDistTableCore F s h
  obtain ⟨g1, g2, g3, g4, g5, g6, g7, g8, g9, g10, g11, g12⟩ := hwf1
  simp only [calcDynPopCorrCore]
  split
  · exact ⟨g1, g2, g3, g4, g5, g6, g7, g8, g9, g10, g11, g12⟩
  · exact ⟨by dsimp only; omega,
      fun c hc => by dsimp only at hc ⊢; have := g2 c hc; omega,
      by dsimp only; omega, by dsimp only; omega, by dsimp only; omega,
      by dsimp only; omega, by dsimp only; omega, by dsimp only; omega,
      by dsimp only; omega, by dsimp only; omega, by dsimp only; omega,
      by dsimp only; omega⟩

theorem wf_resetDynPopCorr (s : St) (h : WF s) : WF (resetDynPopCorr s) := by
  obtain ⟨h1, h2, h3, h4, h5, h6, h7, h8, h9, h10, h11, h12⟩ := h
  exact ⟨h1, h2, h3, h4, h5, h6, h7, h8, by dsimp only [resetDynPopCorr]; omega,
    h10, h11, h12⟩

theorem wf_getScattCompList (F : Funcs) (s : St) (h : WF s) :
    WF (getScattCompList F s) := by
  obtain ⟨h1, h2, h3, h4, h5, h6, h7, h8, h9, h10, h11, h12⟩ := h
  simp only [getScattCompList]
  split
  · exact ⟨h1, h2, h3, h4, h5, h6, h7, h8, h9, h10, h11, h12⟩
  · split
    · have hwf1 : WF { s with
          global := s.global + 1
          clockScattCompList := s.global + 1
          compListData := F.computeCompList F.scattererData
          recomputeCount := s.recomputeCount + 1 } :=
        ⟨by dsimp only; omega,
         fun c hc => by dsimp only at hc ⊢; have := h2 c hc; omega,
         by dsimp only; omega, by dsimp only; omega, by dsimp only; omega,
         by dsimp only; omega, by dsimp only; omega, by dsimp only; omega,
         by dsimp only; omega, by dsimp only; omega, by dsimp only; omega,
         by dsimp only; omega⟩
      split
      · exact wf_calcDynPopCorrCore F _ hwf1
      · exact wf_resetDynPopCorr _ hwf1
    · exact ⟨h1, h2, h3, h4, h5, h6, h7, h8, h9, h10, h11, h12⟩

theorem wf_calcDistTable (F : Funcs) (s : St) (h : WF s) :
    WF (calcDistTable F s) :=
  wf_calcDistTableCore F _ (wf_getScattCompList F s h)

theorem scattDone_getScattCompList (F : Funcs) (s : St) (h : WF s) :
    ScattDone (getScattCompList F s) := by
  obtain ⟨h1, h2, h3, h4, h5, h6, h7, h8, h9, h10, h11, h12⟩ := h
  simp only [getScattCompList]
  split
  · next hg => exact Or.inl hg
  · split
    · split
      · obtain ⟨f1, f2, f3, _⟩ := calcDynPopCorrCore_fields F
          { s with
            global := s.global + 1
            clockScattCompList := s.global + 1
            compListData := F.computeCompList F.scattererData
            recomputeCount := s.recomputeCount + 1 }
        unfold ScattDone
        rw [f1, f3]
        dsimp only
        left
        omega
      · unfold ScattDone resetDynPopCorr
        dsimp only
        left
        omega
    · next hany =>
      right
      intro c hc
      by_contra hcon
      push_neg at hcon
      apply hany
      rw [List.any_eq_true]
      exact ⟨c, hc, by simp only [decide_eq_true_eq]; omega⟩

theorem distDone_calcDistTableCore (F : Funcs) (s : St) (h : WF s) :
    DistDone (calcDistTableCore F s) := by
  obtain ⟨h1, h2, h3, h4, h5, h6, h7, h8, h9, h10, h11, h12⟩ := h
  unfold calcDistTableCore DistDone
  split
  · next hg => exact hg
  · dsimp only
    omega

theorem getScattCompList_of_done (F : Funcs) (s : St) (h : ScattDone s) :
    getScattCompList F s = s := by
  unfold getScattCompList
  rcases h with h | h
  · rw [if_pos h]
  · by_cases hg : s.clockScattCompList > s.masterClock
    · rw [if_pos hg]
    · rw [if_neg hg]
      have hany : (s.scattClocks.any fun c =>
          decide (s.clockScattCompList < c)) = false := by
        rw [List.any_eq_false]
        intro c hc
        simp only [decide_eq_true_eq, not_lt]
        exact h c hc
      simp [hany]

theorem calcDistTable_of_done (F : Funcs) (s : St) (h1 : ScattDone s)
    (h2 : DistDone s) : calcDistTable F s = s := by
  unfold calcDistTable
  rw [getScattCompList_of_done F s h1]
  unfold calcDistTableCore
  unfold DistDone at h2
  rw [if_pos h2]

theorem scattDone_calcDistTable (F : Funcs) (s : St) (h : WF s) :
    ScattDone (calcDistTable F s) := by
  have hsd := scattDone_getScattCompList F s h
  obtain ⟨f1, f2, f3, _⟩ := calcDistTableCore_fields F (getScattCompList F s)
  unfold calcDistTable ScattDone
  rw [f1, f2, f3]
  exact hsd

theorem distDone_calcDistTable (F : Funcs) (s : St) (h : WF s) :
    DistDone (calcDistTable F s) :=
  distDone_calcDistTableCore F _ (wf_getScattCompList F s h)


theorem getBumpMergeCost_idem (F : Funcs) (s : St) (h : WF s) :
    getBumpMergeCost F (getBumpMergeCost F s).2 = getBumpMergeCost F s := by
  by_cases hp : F.bumpParsNonempty = false
  · have h1 : getBumpMergeCost F s = (0, s) := by
      simp only [getBumpMergeCost, if_pos hp]
    rw [h1]
    exact h1
  · by_cases hsc : F.bumpScale < 1/100000
    · have h1 : getBumpMergeCost F s = (0, s) := by
        simp only [getBumpMergeCost, if_neg hp, if_pos hsc]
      rw [h1]
      exact h1
    · have hSt := scattDone_calcDistTable F s h
      have hDt := distDone_calcDistTable F s h
      obtain ⟨w1, w2, w3, w4, w5, w6, w7, w8, w9, w10, w11, w12⟩ :=
        wf_calcDistTable F s h
      by_cases hg : (calcDistTable F s).bumpCostClock >
            (calcDistTable F s).bumpParClock ∧
          (calcDistTable F s).bumpCostClock > (calcDistTable F s).distTableClock
      · have h1 : getBumpMergeCost F s =
            ((calcDistTable F s).bumpCostVal * F.bumpScale, calcDistTable F s) := by
          simp only [getBumpMergeCost, if_neg hp, if_neg hsc, if_pos hg]
        rw [h1]
        simp only [getBumpMergeCost, if_neg hp, if_neg hsc]
        rw [calcDistTable_of_done F _ hSt hDt]
        rw [if_pos hg]
      · have h1 : getBumpMergeCost F s =
            (F.computeBumpCost (calcDistTable F s).compListData
               (calcDistTable F s).distTableData * F.bumpScale,
             { calcDistTable F s with
               global := (calcDistTable F s).global + 1
               bumpCostClock := (calcDistTable F s).global + 1
               bumpCostVal := F.computeBumpCost (calcDistTable F s).compListData
                 (calcDistTable F s).distTableData
               recomputeCount := (calcDistTable F s).recomputeCount + 1 }) := by
          simp only [getBumpMergeCost, if_neg hp, if_neg hsc, if_neg hg]
        rw [h1]
        simp only [getBumpMergeCost, if_neg hp, if_neg hsc]
        rw [calcDistTable_of_done F _
          (by unfold ScattDone at hSt ⊢; dsimp only; exact hSt)
          (by unfold DistDone at hDt ⊢; dsimp only; exact hDt)]
        rw [if_pos (by dsimp only; constructor <;> omega)]

theorem calcBondValenceSum_props (F : Funcs) (s : St) (h : WF s)
    (hr : ¬F.bondRosNonempty = false) :
    WF (calcBondValenceSum F s) ∧ ScattDone (calcBondValenceSum F s) ∧
    DistDone (calcBondValenceSum F s) ∧
    (calcBondValenceSum F s).bondCalcClock >
      (calcBondValenceSum F s).distTableClock ∧
    (calcBondValenceSum F s).bondCalcClock >
      (calcBondValenceSum F s).bondParClock := by
  simp only [calcBondValenceSum, if_neg hr]
  have hSt := scattDone_calcDistTable F s h
  have hDt := distDone_calcDistTable F s h
  obtain ⟨w1, w2, w3, w4, w5, w6, w7, w8, w9, w10, w11, w12⟩ :=
    wf_calcDistTable F s h
  split
  · next hg =>
    exact ⟨⟨w1, w2, w3, w4, w5, w6, w7, w8, w9, w10, w11, w12⟩,
      hSt, hDt, hg.1, hg.2⟩
  · refine ⟨⟨by dsimp only; omega,
      fun c hc => by dsimp only at hc ⊢; have := w2 c hc; omega,
      by dsimp only; omega, by dsimp only; omega, by dsimp only; omega,
      by dsimp only; omega, by dsimp only; omega, by dsimp only; omega,
      by dsimp only; omega, by dsimp only; omega, by dsimp only; omega,
      by dsimp only; omega⟩, ?_, ?_, ?_, ?_⟩
    · unfold ScattDone at hSt ⊢
      dsimp only
      exact hSt
    · unfold DistDone at hDt ⊢
      dsimp only
      exact hDt
    · dsimp only
      omega
    · dsimp only
      omega

theorem calcBondValenceSum_of_done (F : Funcs) (s : St) (h1 : ScattDone s)
    (h2 : DistDone s) (h3 : s.bondCalcClock > s.distTableClock ∧
      s.bondCalcClock > s.bondParClock) :
    calcBondValenceSum F s = s := by
  unfold calcBondValenceSum
  split
  · rfl
  · rw [calcDistTable_of_done F s h1 h2]
    rw [if_pos h3]

theorem getBondValenceCost_idem (F : Funcs) (s : St) (h : WF s) :
    getBondValenceCost F (getBondValenceCost F s).2 = getBondValenceCost F s := by
  by_cases hsc : F.bondScale < 1/100000
  · have h1 : getBondValenceCost F s = (0, s) := by
      simp only [getBondValenceCost, if_pos hsc]
    rw [h1]
    exact h1
  · by_cases hr : F.bondRosNonempty = false
    · have h1 : getBondValenceCost F s =
          (0 * F.bondScale, { s with bondCostVal := 0 }) := by
        simp only [getBondValenceCost, if_neg hsc, if_pos hr]
      rw [h1]
      simp only [getBondValenceCost, if_neg hsc, if_pos hr]
    · obtain ⟨hWu, hSu, hDu, hg1, hg2⟩ := calcBondValenceSum_props F s h hr
      obtain ⟨u1, u2, u3, u4, u5, u6, u7, u8, u9, u10, u11, u12⟩ := hWu
      by_cases hg : (calcBondValenceSum F s).bondCostClock >
            (calcBondValenceSum F s).bondCalcClock ∧
          (calcBondValenceSum F s).bondCostClock >
            (calcBondValenceSum F s).masterScatPowClock
      · have h1 : getBondValenceCost F s =
            ((calcBondValenceSum F s).bondCostVal * F.bondScale,
             calcBondValenceSum F s) := by
          simp only [getBondValenceCost, if_neg hsc, if_neg hr, if_pos hg]
        rw [h1]
        simp only [getBondValenceCost, if_neg hsc, if_neg hr]
        rw [calcBondValenceSum_of_done F _ hSu hDu ⟨hg1, hg2⟩]
        rw [if_pos hg]
      · have h1 : getBondValenceCost F s =
            (F.computeBondCost (calcBondValenceSum F s).bondCalcData * F.bondScale,
             { calcBondValenceSum F s with
               global := (calcBondValenceSum F s).global + 1
               bondCostClock := (calcBondValenceSum F s).global + 1
               bondCostVal := F.computeBondCost
                 (calcBondValenceSum F s).bondCalcData
               recomputeCount := (calcBondValenceSum F s).recomputeCount + 1 }) := by
          simp only [getBondValenceCost, if_neg hsc, if_neg hr, if_neg hg]
        rw [h1]
        simp only [getBondValenceCost, if_neg hsc, if_neg hr]
        rw [calcBondValenceSum_of_done F _
          (by unfold ScattDone at hSu ⊢; dsimp only; exact hSu)
          (by unfold DistDone at hDu ⊢; dsimp only; exact hDu)
          (by dsimp only; constructor <;> omega)]
        rw [if_pos (by dsimp only; constructor <;> omega)]

/-- Claim C9: with no intervening mutation, a second call of
`GetBumpMergeCost` or of `GetBondValenceCost` returns the identical
value-and-state pair, and in particular performs no recomputation (the
instrumented recompute counter is unchanged), because every cached
artifact's clock now beats all of its declared dependencies. -/
theorem costGetters_idempotent (F : Funcs) (s : St) (h : WF s) :
    getBumpMergeCost F (getBumpMergeCost F s).2 = getBumpMergeCost F s ∧
    getBondValenceCost F (getBondValenceCost F s).2 = getBondValenceCost F s ∧
    (getBumpMergeCost F (getBumpMergeCost F s).2).2.recomputeCount =
      (getBumpMergeCost F s).2.recomputeCount ∧
    (getBondValenceCost F (getBondValenceCost F s).2).2.recomputeCount =
      (getBondValenceCost F s).2.recomputeCount := by
  have hb := getBumpMergeCost_idem F s h
  have hv := getBondValenceCost_idem F s h
  exact ⟨hb, hv, congrArg (fun p => p.2.recomputeCount) hb,
    congrArg (fun p => p.2.recomputeCount) hv⟩

/-- A concrete configuration and crystal state for the cache-logic
witnesses. -/
def F0 : Funcs :=
  ⟨fun _ => 0, fun _ => 0, fun _ => 0, fun _ _ => 0, fun _ _ _ => 0,
   fun _ => 0, true, true, 1, 1, false, 0⟩

/-- A concrete well-formed state: fresh crystal, all clocks at 0. -/
def s0 : St :=
  ⟨0, 0, [], 0, 0, 0, 0, 0, 0, 0, 0, 0, 0, 0, 0, 0, 0, 0, 0, 0⟩

theorem wf_s0 : WF s0 := by
  refine ⟨le_refl _, ?_, le_refl _, le_refl _, le_refl _, le_refl _,
    le_refl _, le_refl _, le_refl _, le_refl _, le_refl _, le_refl _⟩
  intro c hc
  exact absurd hc (List.not_mem_nil c)

/-- Witness for claim C9 on the fresh concrete state. -/
theorem costGetters_idempotent_witness :
    WF s0 ∧
    (getBumpMergeCost F0 (getBumpMergeCost F0 s0).2 = getBumpMergeCost F0 s0 ∧
    getBondValenceCost F0 (getBondValenceCost F0 s0).2 =
      getBondValenceCost F0 s0 ∧
    (getBumpMergeCost F0 (getBumpMergeCost F0 s0).2).2.recomputeCount =
      (getBumpMergeCost F0 s0).2.recomputeCount ∧
    (getBondValenceCost F0 (getBondValenceCost F0 s0).2).2.recomputeCount =
      (getBondValenceCost F0 s0).2.recomputeCount) :=
  ⟨wf_s0, costGetters_idempotent F0 s0 wf_s0⟩


/-!  Coherence of the cached data (for claim C10). -/

theorem dataEq_calcDistTableCore (F : Funcs) (s : St) (h : Coherent F s) :
    (calcDistTableCore F s).compListData = s.compListData ∧
    (calcDistTableCore F s).distTableData = s.distTableData ∧
    (calcDistTableCore F s).dynFactorsData = s.dynFactorsData ∧
    (calcDistTableCore F s).bondCalcData = s.bondCalcData ∧
    (calcDistTableCore F s).bumpCostVal = s.bumpCostVal ∧
    (calcDistTableCore F s).bondCostVal = s.bondCostVal := by
  obtain ⟨c1, c2, c3, c4, c5, c6⟩ := h
  unfold calcDistTableCore
  split
  · exact ⟨rfl, rfl, rfl, rfl, rfl, rfl⟩
  · exact ⟨rfl, c2.symm, rfl, rfl, rfl, rfl⟩

theorem coherent_of_dataEq (F : Funcs) (s t : St) (h : Coherent F s)
    (h1 : t.compListData = s.compListData)
    (h2 : t.distTableData = s.distTableData)
    (h3 : t.dynFactorsData = s.dynFactorsData)
    (h4 : t.bondCalcData = s.bondCalcData)
    (h5 : t.bumpCostVal = s.bumpCostVal)
    (h6 : t.bondCostVal = s.bondCostVal) :
    Coherent F t := by
  obtain ⟨c1, c2, c3, c4, c5, c6⟩ := h
  refine ⟨?_, ?_, ?_, ?_, ?_, ?_⟩
  · rw [h1]
    exact c1
  · rw [h2, h1]
    exact c2
  · rw [h3, h2]
    exact c3
  · rw [h4, h1, h3, h2]
    exact c4
  · rw [h5, h1, h2]
    exact c5
  · rw [h6, h4]
    exact c6

theorem dataEq_calcDynPopCorrCore (F : Funcs) (s : St) (h : Coherent F s)
    (hu : F.useDynPopCorr = true) :
    (calcDynPopCorrCore F s).compListData = s.compListData ∧
    (calcDynPopCorrCore F s).distTableData = s.distTableData ∧
    (calcDynPopCorrCore F s).dynFactorsData = s.dynFactorsData ∧
    (calcDynPopCorrCore F s).bondCalcData = s.bondCalcData ∧
    (calcDynPopCorrCore F s).bumpCostVal = s.bumpCostVal ∧
    (calcDynPopCorrCore F s).bondCostVal = s.bondCostVal := by
  obtain ⟨d1, d2, d3, d4, d5, d6⟩ := dataEq_calcDistTableCore F s h
  obtain ⟨c1, c2, c3, c4, c5, c6⟩ := h
  simp only [calcDynPopCorrCore]
  split
  · exact ⟨d1, d2, d3, d4, d5, d6⟩
  · refine ⟨d1, d2, ?_, d4, d5, d6⟩
    dsimp only
    rw [d2, c3, hu]
    simp

theorem dataEq_resetDynPopCorr (F : Funcs) (s : St) (h : Coherent F s)
    (hu : F.useDynPopCorr = false) :
    (resetDynPopCorr s).compListData = s.compListData ∧
    (resetDynPopCorr s).distTableData = s.distTableData ∧
    (resetDynPopCorr s).dynFactorsData = s.dynFactorsData ∧
    (resetDynPopCorr s).bondCalcData = s.bondCalcData ∧
    (resetDynPopCorr s).bumpCostVal = s.bumpCostVal ∧
    (resetDynPopCorr s).bondCostVal = s.bondCostVal := by
  obtain ⟨c1, c2, c3, c4, c5, c6⟩ := h
  refine ⟨rfl, rfl, ?_, rfl, rfl, rfl⟩
  dsimp only [resetDynPopCorr]
  rw [c3, hu]
  simp

theorem dataEq_getScattCompList (F : Funcs) (s : St) (h : Coherent F s) :
    (getScattCompList F s).compListData = s.compListData ∧
    (getScattCompList F s).distTableData = s.distTableData ∧
    (getScattCompList F s).dynFactorsData = s.dynFactorsData ∧
    (getScattCompList F s).bondCalcData = s.bondCalcData ∧
    (getScattCompList F s).bumpCostVal = s.bumpCostVal ∧
    (getScattCompList F s).bondCostVal = s.bondCostVal := by
  obtain ⟨c1, c2, c3, c4, c5, c6⟩ := h
  simp only [getScattCompList]
  split
  · exact ⟨rfl, rfl, rfl, rfl, rfl, rfl⟩
  · split
    · have hds1 : ({ s with
          global := s.global + 1
          clockScattCompList := s.global + 1
          compListData := F.computeCompList F.scattererData
          recomputeCount := s.recomputeCount + 1 } : St).compListData
            = s.compListData ∧
        ({ s with
          global := s.global + 1
          clockScattCompList := s.global + 1
          compListData := F.computeCompList F.scattererData
          recomputeCount := s.recomputeCount + 1 } : St).distTableData
            = s.distTableData ∧
        ({ s with
          global := s.global + 1
          clockScattCompList := s.global + 1
          compListData := F.computeCompList F.scattererData
          recomputeCount := s.recomputeCount + 1 } : St).dynFactorsData
            = s.dynFactorsData ∧
        ({ s with
          global := s.global + 1
          clockScattCompList := s.global + 1
          compListData := F.computeCompList F.scattererData
          recomputeCount := s.recomputeCount + 1 } : St).bondCalcData
            = s.bondCalcData ∧
        ({ s with
          global := s.global + 1
          clockScattCompList := s.global + 1
          compListData := F.computeCompList F.scattererData
          recomputeCount := s.recomputeCount + 1 } : St).bumpCostVal
            = s.bumpCostVal ∧
        ({ s with
          global := s.global + 1
          clockScattCompList := s.global + 1
          compListData := F.computeCompList F.scattererData
          recomputeCount := s.recomputeCount + 1 } : St).bondCostVal
            = s.bondCostVal :=
        ⟨c1.symm, rfl, rfl, rfl, rfl, rfl⟩
      obtain ⟨e1, e2, e3, e4, e5, e6⟩ := hds1
      have hco1 := coherent_of_dataEq F s _
        ⟨c1, c2, c3, c4, c5, c6⟩ e1 e2 e3 e4 e5 e6
      split
      · next hu =>
        obtain ⟨f1, f2, f3, f4, f5, f6⟩ :=
          dataEq_calcDynPopCorrCore F _ hco1 hu
        exact ⟨f1.trans e1, f2.trans e2, f3.trans e3, f4.trans e4,
          f5.trans e5, f6.trans e6⟩
      · next hu =>
        have hu' : F.useDynPopCorr = false := by
          revert hu
          cases F.useDynPopCorr <;> simp
        obtain ⟨f1, f2, f3, f4, f5, f6⟩ :=
          dataEq_resetDynPopCorr F _ hco1 hu'
        exact ⟨f1.trans e1, f2.trans e2, f3.trans e3, f4.trans e4,
          f5.trans e5, f6.trans e6⟩
    · exact ⟨rfl, rfl, rfl, rfl, rfl, rfl⟩

theorem dataEq_calcDistTable (F : Funcs) (s : St) (h : Coherent F s) :
    (calcDistTable F s).compListData = s.compListData ∧
    (calcDistTable F s).distTableData = s.distTableData ∧
    (calcDistTable F s).dynFactorsData = s.dynFactorsData ∧
    (calcDistTable F s).bondCalcData = s.bondCalcData ∧
    (calcDistTable F s).bumpCostVal = s.bumpCostVal ∧
    (calcDistTable F s).bondCostVal = s.bondCostVal := by
  obtain ⟨e1, e2, e3, e4, e5, e6⟩ := dataEq_getScattCompList F s h
  have hco1 := coherent_of_dataEq F s _ h e1 e2 e3 e4 e5 e6
  obtain ⟨f1, f2, f3, f4, f5, f6⟩ :=
    dataEq_calcDistTableCore F (getScattCompList F s) hco1
  exact ⟨f1.trans e1, f2.trans e2, f3.trans e3, f4.trans e4,
    f5.trans e5, f6.trans e6⟩

theorem getBumpMergeCost_val (F : Funcs) (s : St) (h : Coherent F s) :
    (getBumpMergeCost F s).1 =
      (if F.bumpParsNonempty = false then 0
       else if F.bumpScale < 1/100000 then 0
       else F.computeBumpCost s.compListData s.distTableData * F.bumpScale) ∧
    (getBumpMergeCost F s).2.compListData = s.compListData ∧
    (getBumpMergeCost F s).2.distTableData = s.distTableData ∧
    (getBumpMergeCost F s).2.dynFactorsData = s.dynFactorsData ∧
    (getBumpMergeCost F s).2.bondCalcData = s.bondCalcData ∧
    (getBumpMergeCost F s).2.bumpCostVal = s.bumpCostVal ∧
    (getBumpMergeCost F s).2.bondCostVal = s.bondCostVal := by
  obtain ⟨c1, c2, c3, c4, c5, c6⟩ := h
  by_cases hp : F.bumpParsNonempty = false
  · have hcall : getBumpMergeCost F s = (0, s) := by
      simp only [getBumpMergeCost, if_pos hp]
    rw [hcall, if_pos hp]
    exact ⟨rfl, rfl, rfl, rfl, rfl, rfl, rfl⟩
  · by_cases hsc : F.bumpScale < 1/100000
    · have hcall : getBumpMergeCost F s = (0, s) := by
        simp only [getBumpMergeCost, if_neg hp, if_pos hsc]
      rw [hcall, if_neg hp, if_pos hsc]
      exact ⟨rfl, rfl, rfl, rfl, rfl, rfl, rfl⟩
    · obtain ⟨e1, e2, e3, e4, e5, e6⟩ :=
        dataEq_calcDistTable F s ⟨c1, c2, c3, c4, c5, c6⟩
      simp only [getBumpMergeCost, if_neg hp, if_neg hsc]
      split
      · refine ⟨?_, e1, e2, e3, e4, e5, e6⟩
        dsimp only
        rw [e5, c5]
      · refine ⟨?_, e1, e2, e3, e4, ?_, e6⟩
        · dsimp only
          rw [e1, e2]
        · dsimp only
          rw [e1, e2, c5]

theorem dataEq_calcBondValenceSum (F : Funcs) (s : St) (h : Coherent F s) :
    (calcBondValenceSum F s).compListData = s.compListData ∧
    (calcBondValenceSum F s).distTableData = s.distTableData ∧
    (calcBondValenceSum F s).dynFactorsData = s.dynFactorsData ∧
    (calcBondValenceSum F s).bondCalcData = s.bondCalcData ∧
    (calcBondValenceSum F s).bumpCostVal = s.bumpCostVal ∧
    (calcBondValenceSum F s).bondCostVal = s.bondCostVal := by
  obtain ⟨c1, c2, c3, c4, c5, c6⟩ := h
  simp only [calcBondValenceSum]
  split
  · exact ⟨rfl, rfl, rfl, rfl, rfl, rfl⟩
  · obtain ⟨e1, e2, e3, e4, e5, e6⟩ :=
      dataEq_calcDistTable F s ⟨c1, c2, c3, c4, c5, c6⟩
    split
    · exact ⟨e1, e2, e3, e4, e5, e6⟩
    · refine ⟨e1, e2, e3, ?_, e5, e6⟩
      dsimp only
      rw [e1, e3, e2, c4]

theorem getBondValenceCost_val (F : Funcs) (s : St) (h : Coherent F s) :
    (getBondValenceCost F s).1 =
      (if F.bondScale < 1/100000 then 0
       else if F.bondRosNonempty = false then 0
       else F.computeBondCost s.bondCalcData * F.bondScale) := by
  obtain ⟨c1, c2, c3, c4, c5, c6⟩ := h
  by_cases hsc : F.bondScale < 1/100000
  · simp only [getBondValenceCost, if_pos hsc]
  · by_cases hr : F.bondRosNonempty = false
    · simp only [getBondValenceCost, if_neg hsc, if_pos hr]
      rw [zero_mul]
    · obtain ⟨e1, e2, e3, e4, e5, e6⟩ :=
        dataEq_calcBondValenceSum F s ⟨c1, c2, c3, c4, c5, c6⟩
      simp only [getBondValenceCost, if_neg hsc, if_neg hr]
      split
      · dsimp only
        rw [e6, c6]
      · dsimp only
        rw [e4]

/-- Claim C10: the log likelihood reported to the optimization driver is
exactly the sum of the two configured penalty costs,
`GetBumpMergeCost() + GetBondValenceCost()`, with no other term, for every
crystal state whose caches hold what their recomputations would produce. -/
theorem getLogLikelihood_eq_sum (F : Funcs) (s : St) (h : Coherent F s) :
    (getLogLikelihood F s).1 =
      (getBumpMergeCost F s).1 + (getBondValenceCost F s).1 := by
  obtain ⟨hval, hd1, hd2, hd3, hd4, hd5, hd6⟩ := getBumpMergeCost_val F s h
  have hco : Coherent F (getBumpMergeCost F s).2 :=
    coherent_of_dataEq F s _ h hd1 hd2 hd3 hd4 hd5 hd6
  have h1 := getBondValenceCost_val F (getBumpMergeCost F s).2 hco
  have h2 := getBondValenceCost_val F s h
  simp only [getLogLikelihood]
  rw [h1, h2, hd4]

/-- Witness for claim C10 on the fresh concrete state, whose caches are
trivially coherent. -/
theorem getLogLikelihood_eq_sum_witness :
    Coherent F0 s0 ∧
    (getLogLikelihood F0 s0).1 =
      (getBumpMergeCost F0 s0).1 + (getBondValenceCost F0 s0).1 :=
  ⟨⟨rfl, rfl, rfl, rfl, rfl, rfl⟩,
   getLogLikelihood_eq_sum F0 s0 ⟨rfl, rfl, rfl, rfl, rfl, rfl⟩⟩


end ObjCryst.CacheModel
